import Mathlib

/-!
Verification development for the meshlang repository: a shallow embedding of
the distributed fact store (`src/datalog/store.ts`), the mesh replication
handlers (`src/network/mesh.ts`), the group consensus state machine
(`src/network/group.ts`) and the Kademlia-style DHT routing table, together
with proofs of the behavioural properties stated for them.

Modelling conventions:
* JS `Map` objects are modelled as association lists with first-match lookup
  and in-place overwrite (`mapGet` / `mapSet`), which reproduces the `Map`
  insertion-order iteration semantics; JS `Set` objects are lists to which an
  element is appended only when absent (`setAdd`), matching `Set.add`.
* `Date.now()` is threaded in as an explicit `now : Nat` argument.
* JS 32-bit arithmetic in the djb2 hash is modelled on `Nat` with explicit
  `% 2^32`; `charCodeAt` is modelled by encoding each character to its UTF-16
  code units.
* JS numbers stored as fact values are modelled by `Int` (the repository only
  ever stores primitive values; float-specific behaviour is not relied on by
  any claim).
-/

set_option maxRecDepth 8192

namespace Meshlang

/-- Fact values: the `Value` union of `src/datalog/types.ts`
(`string | number | boolean | null`). -/
inductive Value where
  | str (s : String)
  | int (n : Int)
  | bool (b : Bool)
  | null
deriving DecidableEq, Repr

/-- Hex digit character, lower case, as produced by `Number.toString(16)`. -/
def hexDigitChar (n : Nat) : Char :=
  if n < 10 then Char.ofNat (48 + n) else Char.ofNat (87 + n)

/-- JSON escaping of a single character, as performed by `JSON.stringify` on
string contents: quote and backslash are escaped, the common control
characters get their short escapes, other control characters become
`\u00XX`. -/
def jsonEscapeChar (c : Char) : List Char :=
  if c = '"' then ['\\', '"']
  else if c = '\\' then ['\\', '\\']
  else if c = Char.ofNat 10 then ['\\', 'n']
  else if c = Char.ofNat 13 then ['\\', 'r']
  else if c = Char.ofNat 9 then ['\\', 't']
  else if c = Char.ofNat 8 then ['\\', 'b']
  else if c = Char.ofNat 12 then ['\\', 'f']
  else if c.toNat < 32 then
    ['\\', 'u', '0', '0', hexDigitChar (c.toNat / 16), hexDigitChar (c.toNat % 16)]
  else [c]

/-- `JSON.stringify` on a primitive value, used by `DatalogStore.valueKey`. -/
def valueKey : Value → String
  | .str s => "\"" ++ String.mk (s.data.flatMap jsonEscapeChar) ++ "\""
  | .int n => toString n
  | .bool b => if b then "true" else "false"
  | .null => "null"

/-- A fact is an ordered pair (key, value) (`Fact` in `src/datalog/types.ts`). -/
structure Fact where
  key : String
  value : Value
deriving DecidableEq, Repr

abbrev FactId := String
abbrev Scope := String

/-- `StoredFact` of `src/datalog/types.ts`. -/
structure StoredFact where
  id : FactId
  fact : Fact
  scope : Scope
  timestamp : Nat
  source : String
deriving DecidableEq, Repr

/-- `DatalogStore.factId`: the content address `scope:key:JSON.stringify(value)`. -/
def factId (f : Fact) (scope : Scope) : FactId :=
  scope ++ ":" ++ f.key ++ ":" ++ valueKey f.value

/-! ### The djb2 scope hash (`simpleHash` in `src/datalog/store.ts`) -/

/-- UTF-16 code units of a character, as read by JS `charCodeAt`. -/
def utf16Units (c : Char) : List Nat :=
  let n := c.toNat
  if n < 65536 then [n]
  else [55296 + (n - 65536) / 1024, 56320 + (n - 65536) % 1024]

/-- The UTF-16 code-unit sequence of a string. -/
def strUnits (s : String) : List Nat := s.data.flatMap utf16Units

/-- One step of the djb2 loop: `hash = ((hash << 5) + hash) ^ c` on JS 32-bit
integers.  Tracking the unsigned 32-bit value `u` of `hash`, the step is
`u' = (33 * u) % 2^32 ^^^ c` (the shift, the exact float addition and the
`ToInt32` coercions of `^` compose to exactly this on the unsigned view). -/
def djb2Step (h c : Nat) : Nat := (h * 33 % 4294967296) ^^^ c

/-- The djb2 accumulator over a whole string, starting from 5381; this is the
value `hash >>> 0` returned by `simpleHash` before hex formatting. -/
def djb2 (s : String) : Nat := (strUnits s).foldl djb2Step 5381

/-- `Number.toString(16)` for the unsigned 32-bit hash value. -/
def toHex (n : Nat) : String := String.mk (Nat.toDigits 16 n)

/-- `String.padStart(8, '0')`. -/
def padStart8 (s : String) : String :=
  String.mk (List.replicate (8 - s.length) '0') ++ s

/-- `simpleHash` of `src/datalog/store.ts`. -/
def simpleHash (s : String) : String := padStart8 (toHex (djb2 s))

/-! ### Association-list models of JS `Map` and `Set` -/

/-- `Map.get`: first entry with the given key. -/
def mapGet {α : Type} : List (String × α) → String → Option α
  | [], _ => none
  | (k', v) :: rest, k => if k' = k then some v else mapGet rest k

/-- `Map.set`: overwrite in place, else append (preserving iteration order). -/
def mapSet {α : Type} : List (String × α) → String → α → List (String × α)
  | [], k, v => [(k, v)]
  | (k', v') :: rest, k, v =>
      if k' = k then (k, v) :: rest else (k', v') :: mapSet rest k v

/-- `Map.delete`: remove the entry with the given key, if any. -/
def mapDelete {α : Type} : List (String × α) → String → List (String × α)
  | [], _ => []
  | (k', v') :: rest, k => if k' = k then rest else (k', v') :: mapDelete rest k

/-- `Set.add`: append only when absent. -/
def setAdd (l : List String) (x : String) : List String :=
  if x ∈ l then l else l ++ [x]

/-- `Set.delete`: remove the element (sets hold no duplicates). -/
def setDel (l : List String) (x : String) : List String := l.erase x

/-! ### The fact store (`DatalogStore` of `src/datalog/store.ts`) -/

/-- `ScopeMeta` of `src/datalog/store.ts`. -/
structure ScopeMeta where
  hash : String
  visibleTo : List String
  lastModified : Nat
deriving DecidableEq, Repr

/-- The mutable state of a `DatalogStore`: the facts map and the three
indices, plus the per-scope metadata. -/
structure DatalogStore where
  facts : List (FactId × StoredFact)
  byScope : List (Scope × List FactId)
  byKey : List (String × List FactId)
  byValue : List (String × List FactId)
  scopeMeta : List (Scope × ScopeMeta)
deriving DecidableEq, Repr

def emptyStore : DatalogStore := ⟨[], [], [], [], []⟩

/-- The id set of a scope's index bucket (empty when the scope is unknown). -/
def bucketIds (s : DatalogStore) (sc : Scope) : List FactId :=
  (mapGet s.byScope sc).getD []

/-- `findByScope`: resolve the scope bucket through the facts map.  The source
uses a non-null assertion (`this.facts.get(id)!`); `filterMap` models this,
and under the store invariant every id resolves. -/
def DatalogStore.findByScope (s : DatalogStore) (sc : Scope) : List StoredFact :=
  (bucketIds s sc).filterMap (fun id => mapGet s.facts id)

/-- `computeScopeHash`: `'00000000'` for an empty scope, otherwise the djb2
hash of the lexicographically sorted member ids joined with `'|'`. -/
def computeScopeHash (s : DatalogStore) (sc : Scope) : String :=
  let fs := s.findByScope sc
  if fs.isEmpty then "00000000"
  else simpleHash (String.intercalate "|"
    (List.insertionSort (· ≤ ·) (fs.map (fun f => f.id))))

/-- `updateScopeHash`: recompute, and update/create the metadata entry only
when the hash changed (absent metadata counts as hash `'00000000'`). -/
def updateScopeHash (s : DatalogStore) (sc : Scope) (now : Nat) : DatalogStore :=
  let newHash := computeScopeHash s sc
  match mapGet s.scopeMeta sc with
  | some meta =>
      if meta.hash = newHash then s
      else
        let meta' : ScopeMeta := { meta with hash := newHash, lastModified := now }
        { s with scopeMeta := mapSet s.scopeMeta sc meta' }
  | none =>
      if "00000000" = newHash then s
      else { s with scopeMeta := mapSet s.scopeMeta sc ⟨newHash, [], now⟩ }

/-- Add `id` to the bucket of `k` in an index, creating the bucket if needed
(`if (!index.has(k)) index.set(k, new Set()); index.get(k)!.add(id)`). -/
def indexAdd (m : List (String × List FactId)) (k : String) (id : FactId) :
    List (String × List FactId) :=
  mapSet m k (setAdd ((mapGet m k).getD []) id)

/-- Remove `id` from the bucket of `k`, deleting the bucket when it becomes
empty, as `retract` does. -/
def indexDel (m : List (String × List FactId)) (k : String) (id : FactId) :
    List (String × List FactId) :=
  match mapGet m k with
  | none => m
  | some ids =>
      let ids' := setDel ids id
      if ids'.isEmpty then mapDelete m k else mapSet m k ids'

/-- The common insert block of `add` and `addStored` (both perform the same
map insert, the same three index updates and the same scope-hash refresh once
the fact is known to be new; `add` constructs the `StoredFact` first). -/
def insertFact (s : DatalogStore) (f : StoredFact) (now : Nat) : DatalogStore :=
  let s1 : DatalogStore :=
    { s with
      facts := mapSet s.facts f.id f
      byScope := indexAdd s.byScope f.scope f.id
      byKey := indexAdd s.byKey f.fact.key f.id
      byValue := indexAdd s.byValue (valueKey f.fact.value) f.id }
  updateScopeHash s1 f.scope now

/-- `DatalogStore.add`: scope defaults to `source`; if the content address is
already present return `null` and change nothing; otherwise store the fact
(timestamped `now`), update the three indices and the scope hash, and return
the `StoredFact`. -/
def DatalogStore.add (s : DatalogStore) (f : Fact) (source : String)
    (scope? : Option Scope) (now : Nat) : Option StoredFact × DatalogStore :=
  let actualScope := scope?.getD source
  let id := factId f actualScope
  match mapGet s.facts id with
  | some _ => (none, s)
  | none =>
      let stored : StoredFact := ⟨id, f, actualScope, now, source⟩
      (some stored, insertFact s stored now)

/-- `DatalogStore.addStored`: add a pre-built `StoredFact` (used by sync),
trusting its `id` field; returns whether the fact was new. -/
def DatalogStore.addStored (s : DatalogStore) (f : StoredFact) (now : Nat) :
    Bool × DatalogStore :=
  match mapGet s.facts f.id with
  | some _ => (false, s)
  | none => (true, insertFact s f now)

/-- `DatalogStore.retract`: remove the fact from the map and all indices and
refresh the scope hash; no-op when absent. -/
def DatalogStore.retract (s : DatalogStore) (f : Fact) (sc : Scope) (now : Nat) :
    Bool × DatalogStore :=
  let id := factId f sc
  match mapGet s.facts id with
  | none => (false, s)
  | some _ =>
      let s1 : DatalogStore :=
        { s with
          facts := mapDelete s.facts id
          byScope := indexDel s.byScope sc id
          byKey := indexDel s.byKey f.key id
          byValue := indexDel s.byValue (valueKey f.value) id }
      (true, updateScopeHash s1 sc now)

/-- `getScopeHash`: the cached metadata hash, computing when absent. -/
def DatalogStore.getScopeHash (s : DatalogStore) (sc : Scope) : String :=
  match mapGet s.scopeMeta sc with
  | some meta => meta.hash
  | none => computeScopeHash s sc

/-- `all()`: the stored facts in map iteration order. -/
def DatalogStore.all (s : DatalogStore) : List StoredFact := s.facts.map (fun p => p.2)

/-- `allIds()`: the known fact ids. -/
def DatalogStore.allIds (s : DatalogStore) : List FactId := s.facts.map (fun p => p.1)

/-! ### Lemmas about the `Map`/`Set` models -/

theorem mapGet_mapSet {α : Type} (m : List (String × α)) (k k' : String) (v : α) :
    mapGet (mapSet m k v) k' = if k = k' then some v else mapGet m k' := by
  induction m with
  | nil => simp only [mapSet, mapGet]
  | cons p rest ih =>
      obtain ⟨a, b⟩ := p
      simp only [mapSet, mapGet]
      by_cases hak : a = k
      · subst hak
        by_cases hk' : a = k' <;> simp [mapGet, hk']
      · by_cases hak' : a = k'
        · subst hak'
          simp [mapGet, hak, Ne.symm hak]
        · simp [mapGet, hak, hak', ih]

theorem mapGet_eq_none_iff {α : Type} (m : List (String × α)) (k : String) :
    mapGet m k = none ↔ k ∉ m.map Prod.fst := by
  induction m with
  | nil => simp [mapGet]
  | cons p rest ih =>
      obtain ⟨a, b⟩ := p
      by_cases hak : a = k
      · subst hak; simp [mapGet]
      · simp [mapGet, hak, ih, Ne.symm hak]

theorem keys_mapSet {α : Type} (m : List (String × α)) (k : String) (v : α) :
    (mapSet m k v).map Prod.fst =
      if k ∈ m.map Prod.fst then m.map Prod.fst else m.map Prod.fst ++ [k] := by
  induction m with
  | nil => simp [mapSet]
  | cons p rest ih =>
      obtain ⟨a, b⟩ := p
      by_cases hak : a = k
      · subst hak; simp [mapSet]
      · simp only [mapSet, if_neg hak, List.map_cons, ih]
        by_cases hk : k ∈ rest.map Prod.fst <;>
          simp [hk, Ne.symm hak]

theorem mem_mapSet {α : Type} {m : List (String × α)} {k : String} {v : α}
    {p : String × α} (h : p ∈ mapSet m k v) : p = (k, v) ∨ p ∈ m := by
  induction m with
  | nil => simpa [mapSet] using h
  | cons q rest ih =>
      obtain ⟨a, b⟩ := q
      by_cases hak : a = k
      · subst hak
        rcases List.mem_cons.1 (by simpa [mapSet] using h) with h' | h'
        · exact Or.inl h'
        · exact Or.inr (List.mem_cons_of_mem _ h')
      · rcases List.mem_cons.1 (by simpa [mapSet, hak] using h) with h' | h'
        · exact Or.inr (h' ▸ List.mem_cons_self _ _)
        · rcases ih h' with h'' | h''
          · exact Or.inl h''
          · exact Or.inr (List.mem_cons_of_mem _ h'')

theorem mem_mapDelete {α : Type} {m : List (String × α)} {k : String}
    {p : String × α} (h : p ∈ mapDelete m k) : p ∈ m := by
  induction m with
  | nil => simpa [mapDelete] using h
  | cons q rest ih =>
      obtain ⟨a, b⟩ := q
      by_cases hak : a = k
      · simp only [mapDelete, if_pos hak] at h
        exact List.mem_cons_of_mem _ h
      · simp only [mapDelete, if_neg hak, List.mem_cons] at h
        rcases h with h | h
        · exact h ▸ List.mem_cons_self _ _
        · exact List.mem_cons_of_mem _ (ih h)

theorem mapGet_mem {α : Type} {m : List (String × α)} {k : String} {v : α}
    (h : mapGet m k = some v) : (k, v) ∈ m := by
  induction m with
  | nil => simp [mapGet] at h
  | cons q rest ih =>
      obtain ⟨a, b⟩ := q
      by_cases hak : a = k
      · subst hak
        have hbv : b = v := by simpa [mapGet] using h
        exact hbv ▸ List.mem_cons_self _ _
      · simp only [mapGet, if_neg hak] at h
        exact List.mem_cons_of_mem _ (ih h)

theorem mem_setAdd {l : List String} {x y : String} :
    y ∈ setAdd l x ↔ y ∈ l ∨ y = x := by
  unfold setAdd
  by_cases hx : x ∈ l
  · simp only [if_pos hx]
    constructor
    · exact Or.inl
    · rintro (h | rfl) <;> [exact h; exact hx]
  · simp [if_neg hx]

theorem nodup_setAdd {l : List String} (h : l.Nodup) (x : String) :
    (setAdd l x).Nodup := by
  unfold setAdd
  by_cases hx : x ∈ l
  · simpa [hx]
  · rw [if_neg hx]
    exact List.Nodup.append h (List.nodup_singleton x)
      (by simp [List.disjoint_singleton, hx])

theorem setAdd_of_not_mem {l : List String} {x : String} (h : x ∉ l) :
    setAdd l x = l ++ [x] := if_neg h

/-! ### The store well-formedness invariant

All observations of the store go through `mapGet`; the invariant is therefore
stated through `mapGet` (and `bucketIds`).  It asserts: the facts map has no
duplicate keys and each entry's key is the stored fact's `id`; every index
bucket is duplicate-free; the scope index is sound (every indexed id resolves
to a fact of that scope) and complete (every fact is indexed under its
scope); and every cached scope hash equals the recomputed one. -/

structure WF (s : DatalogStore) : Prop where
  factsNodup : (s.facts.map Prod.fst).Nodup
  factsKey : ∀ id f, mapGet s.facts id = some f → f.id = id
  scopeBucketNodup : ∀ sc : Scope, (bucketIds s sc).Nodup
  keyBucketNodup : ∀ k ids, mapGet s.byKey k = some ids → ids.Nodup
  valueBucketNodup : ∀ k ids, mapGet s.byValue k = some ids → ids.Nodup
  sound : ∀ sc : Scope, ∀ id ∈ bucketIds s sc,
    ∃ f, mapGet s.facts id = some f ∧ f.scope = sc
  complete : ∀ id f, mapGet s.facts id = some f → id ∈ bucketIds s f.scope
  metaHash : ∀ sc m, mapGet s.scopeMeta sc = some m →
    m.hash = computeScopeHash s sc

theorem WF_empty : WF emptyStore := by
  constructor <;> intros <;> simp_all [emptyStore, mapGet, bucketIds]

/-! ### Structural lemmas about the store operations -/

theorem updateScopeHash_facts (s : DatalogStore) (sc : Scope) (now : Nat) :
    (updateScopeHash s sc now).facts = s.facts := by
  unfold updateScopeHash
  cases mapGet s.scopeMeta sc <;> dsimp <;> split <;> rfl

theorem updateScopeHash_byScope (s : DatalogStore) (sc : Scope) (now : Nat) :
    (updateScopeHash s sc now).byScope = s.byScope := by
  unfold updateScopeHash
  cases mapGet s.scopeMeta sc <;> dsimp <;> split <;> rfl

theorem updateScopeHash_byKey (s : DatalogStore) (sc : Scope) (now : Nat) :
    (updateScopeHash s sc now).byKey = s.byKey := by
  unfold updateScopeHash
  cases mapGet s.scopeMeta sc <;> dsimp <;> split <;> rfl

theorem updateScopeHash_byValue (s : DatalogStore) (sc : Scope) (now : Nat) :
    (updateScopeHash s sc now).byValue = s.byValue := by
  unfold updateScopeHash
  cases mapGet s.scopeMeta sc <;> dsimp <;> split <;> rfl

theorem bucketIds_updateScopeHash (s : DatalogStore) (sc sc' : Scope) (now : Nat) :
    bucketIds (updateScopeHash s sc now) sc' = bucketIds s sc' := by
  unfold bucketIds
  rw [updateScopeHash_byScope]

/-- `computeScopeHash` only depends on the scope's bucket and the facts the
bucket's ids resolve to. -/
theorem computeScopeHash_congr {s₁ s₂ : DatalogStore} {sc : Scope}
    (hb : bucketIds s₁ sc = bucketIds s₂ sc)
    (hf : ∀ id ∈ bucketIds s₁ sc, mapGet s₁.facts id = mapGet s₂.facts id) :
    computeScopeHash s₁ sc = computeScopeHash s₂ sc := by
  unfold computeScopeHash DatalogStore.findByScope
  rw [← hb, List.filterMap_congr hf]

theorem computeScopeHash_updateScopeHash (s : DatalogStore) (sc sc' : Scope)
    (now : Nat) :
    computeScopeHash (updateScopeHash s sc now) sc' = computeScopeHash s sc' := by
  apply computeScopeHash_congr
  · exact bucketIds_updateScopeHash ..
  · intro id _
    rw [updateScopeHash_facts]

/-- After `updateScopeHash s sc`, every cached hash is correct provided all
caches other than the one for `sc` were already correct. -/
theorem metaHash_updateScopeHash {s : DatalogStore} {sc : Scope} {now : Nat}
    (h : ∀ sc' m, mapGet s.scopeMeta sc' = some m → sc' ≠ sc →
      m.hash = computeScopeHash s sc') :
    ∀ sc' m, mapGet (updateScopeHash s sc now).scopeMeta sc' = some m →
      m.hash = computeScopeHash (updateScopeHash s sc now) sc' := by
  intro sc' m hm
  rw [computeScopeHash_updateScopeHash]
  unfold updateScopeHash at hm
  by_cases hsc : sc' = sc
  · subst hsc
    rcases hmeta : mapGet s.scopeMeta sc' with _ | meta <;>
      rw [hmeta] at hm <;> dsimp at hm
    · split at hm
      · rw [hmeta] at hm; cases hm
      · rw [mapGet_mapSet, if_pos rfl] at hm
        cases hm; rfl
    · split at hm
      next heq =>
        rw [hmeta] at hm
        cases hm; exact heq
      · rw [mapGet_mapSet, if_pos rfl] at hm
        cases hm; rfl
  · have hne : sc ≠ sc' := fun hc => hsc hc.symm
    rcases hmeta : mapGet s.scopeMeta sc with _ | meta <;>
      rw [hmeta] at hm <;> dsimp at hm
    · split at hm
      · exact h sc' m hm hsc
      · rw [mapGet_mapSet, if_neg hne] at hm
        exact h sc' m hm hsc
    · split at hm
      · exact h sc' m hm hsc
      · rw [mapGet_mapSet, if_neg hne] at hm
        exact h sc' m hm hsc

/-! ### Structural lemmas about `insertFact` -/

theorem getD_indexAdd (m : List (String × List FactId)) (k : String)
    (id : FactId) (k' : String) :
    (mapGet (indexAdd m k id) k').getD [] =
      if k = k' then setAdd ((mapGet m k).getD []) id
      else (mapGet m k').getD [] := by
  rw [indexAdd, mapGet_mapSet]
  split <;> rfl

theorem insertFact_facts (s : DatalogStore) (f : StoredFact) (now : Nat) :
    (insertFact s f now).facts = mapSet s.facts f.id f := by
  unfold insertFact
  rw [updateScopeHash_facts]

theorem mapGet_insertFact_facts (s : DatalogStore) (f : StoredFact) (now : Nat)
    (id : FactId) :
    mapGet (insertFact s f now).facts id =
      if f.id = id then some f else mapGet s.facts id := by
  rw [insertFact_facts, mapGet_mapSet]

theorem bucketIds_insertFact (s : DatalogStore) (f : StoredFact) (now : Nat)
    (sc : Scope) :
    bucketIds (insertFact s f now) sc =
      if f.scope = sc then setAdd (bucketIds s sc) f.id else bucketIds s sc := by
  unfold bucketIds insertFact
  rw [updateScopeHash_byScope]
  dsimp only
  rw [getD_indexAdd]
  split
  next h => rw [h]
  next => rfl

theorem byKey_insertFact (s : DatalogStore) (f : StoredFact) (now : Nat)
    (k : String) :
    mapGet (insertFact s f now).byKey k =
      if f.fact.key = k then
        some (setAdd ((mapGet s.byKey f.fact.key).getD []) f.id)
      else mapGet s.byKey k := by
  unfold insertFact
  rw [updateScopeHash_byKey]
  exact mapGet_mapSet ..

theorem byValue_insertFact (s : DatalogStore) (f : StoredFact) (now : Nat)
    (k : String) :
    mapGet (insertFact s f now).byValue k =
      if valueKey f.fact.value = k then
        some (setAdd ((mapGet s.byValue (valueKey f.fact.value)).getD []) f.id)
      else mapGet s.byValue k := by
  unfold insertFact
  rw [updateScopeHash_byValue]
  exact mapGet_mapSet ..

/-- A fresh id is in no scope bucket of a well-formed store. -/
theorem not_mem_bucket_of_fresh {s : DatalogStore} (w : WF s) {id : FactId}
    (h : mapGet s.facts id = none) (sc : Scope) : id ∉ bucketIds s sc := by
  intro hm
  obtain ⟨f, hf, _⟩ := w.sound sc id hm
  rw [h] at hf
  cases hf

/-- For a well-formed store and an unseen id, `computeScopeHash` is unchanged
by the insert for every scope other than the fact's. -/
theorem computeScopeHash_insertFact_other {s : DatalogStore} (w : WF s)
    {f : StoredFact} (hfresh : mapGet s.facts f.id = none) (now : Nat)
    {sc : Scope} (hsc : f.scope ≠ sc) :
    computeScopeHash (insertFact s f now) sc = computeScopeHash s sc := by
  apply computeScopeHash_congr
  · rw [bucketIds_insertFact, if_neg hsc]
  · intro id hid
    rw [bucketIds_insertFact, if_neg hsc] at hid
    rw [mapGet_insertFact_facts]
    have : f.id ≠ id := by
      intro h
      exact not_mem_bucket_of_fresh w hfresh sc (h ▸ hid)
    rw [if_neg this]

/-- `insertFact` preserves well-formedness when the fact's id is new. -/
theorem WF_insertFact {s : DatalogStore} (w : WF s) {f : StoredFact}
    (hfresh : mapGet s.facts f.id = none) (now : Nat) :
    WF (insertFact s f now) := by
  have hkeys : f.id ∉ s.facts.map Prod.fst := (mapGet_eq_none_iff ..).1 hfresh
  constructor
  · -- factsNodup
    rw [insertFact_facts, keys_mapSet, if_neg hkeys]
    exact List.Nodup.append w.factsNodup (List.nodup_singleton _)
      (by simp [List.disjoint_singleton, hkeys])
  · -- factsKey
    intro id g hg
    rw [mapGet_insertFact_facts] at hg
    split at hg
    next heq => cases hg; exact heq
    next => exact w.factsKey id g hg
  · -- scopeBucketNodup
    intro sc
    rw [bucketIds_insertFact]
    split
    · exact nodup_setAdd (w.scopeBucketNodup sc) f.id
    · exact w.scopeBucketNodup sc
  · -- keyBucketNodup
    intro k ids hids
    rw [byKey_insertFact] at hids
    split at hids
    · cases hids
      apply nodup_setAdd _ f.id
      rcases hk : mapGet s.byKey f.fact.key with _ | old
      · simp
      · simpa using w.keyBucketNodup _ old hk
    · exact w.keyBucketNodup k ids hids
  · -- valueBucketNodup
    intro k ids hids
    rw [byValue_insertFact] at hids
    split at hids
    · cases hids
      apply nodup_setAdd _ f.id
      rcases hk : mapGet s.byValue (valueKey f.fact.value) with _ | old
      · simp
      · simpa using w.valueBucketNodup _ old hk
    · exact w.valueBucketNodup k ids hids
  · -- sound
    intro sc id hid
    rw [bucketIds_insertFact] at hid
    rw [mapGet_insertFact_facts]
    by_cases hscope : f.scope = sc
    · rw [if_pos hscope] at hid
      rcases mem_setAdd.1 hid with hold | rfl
      · obtain ⟨g, hg, hgsc⟩ := w.sound sc id hold
        have hne : f.id ≠ id := by
          intro h
          rw [← h, hfresh] at hg
          cases hg
        exact ⟨g, by rw [if_neg hne]; exact hg, hgsc⟩
      · exact ⟨f, by rw [if_pos rfl], hscope⟩
    · rw [if_neg hscope] at hid
      obtain ⟨g, hg, hgsc⟩ := w.sound sc id hid
      have hne : f.id ≠ id := by
        intro h
        rw [← h, hfresh] at hg
        cases hg
      exact ⟨g, by rw [if_neg hne]; exact hg, hgsc⟩
  · -- complete
    intro id g hg
    rw [mapGet_insertFact_facts] at hg
    rw [bucketIds_insertFact]
    split at hg
    next heq =>
      cases hg
      rw [heq, if_pos rfl]
      exact mem_setAdd.2 (Or.inr rfl)
    next =>
      have := w.complete id g hg
      split
      · exact mem_setAdd.2 (Or.inl this)
      next hne =>
        -- g's scope differs from f.scope or not; if equal the bucket gained f.id
        exact this
  · -- metaHash
    unfold insertFact
    apply metaHash_updateScopeHash
    intro sc' m hm hne
    -- caches of the intermediate store are the old caches; other scopes'
    -- recomputed hashes are unchanged by the insert
    have hold := w.metaHash sc' m hm
    have hsame : computeScopeHash (insertFact s f now) sc' = computeScopeHash s sc' :=
      computeScopeHash_insertFact_other w hfresh now fun h => hne h.symm
    -- the intermediate store and `insertFact` share facts and byScope
    have : computeScopeHash
        { s with
          facts := mapSet s.facts f.id f
          byScope := indexAdd s.byScope f.scope f.id
          byKey := indexAdd s.byKey f.fact.key f.id
          byValue := indexAdd s.byValue (valueKey f.fact.value) f.id } sc' =
        computeScopeHash (insertFact s f now) sc' := by
      apply computeScopeHash_congr
      · unfold bucketIds insertFact
        rw [updateScopeHash_byScope]
      · intro id _
        rw [insertFact_facts]
    rw [this, hsame]
    exact hold

/-- `addStored` preserves well-formedness unconditionally. -/
theorem WF_addStored {s : DatalogStore} (w : WF s) (f : StoredFact) (now : Nat) :
    WF (s.addStored f now).2 := by
  unfold DatalogStore.addStored
  rcases hid : mapGet s.facts f.id with _ | g
  · exact WF_insertFact w hid now
  · exact w

/-- `add` preserves well-formedness unconditionally. -/
theorem WF_add {s : DatalogStore} (w : WF s) (f : Fact) (source : String)
    (scope? : Option Scope) (now : Nat) :
    WF (s.add f source scope? now).2 := by
  unfold DatalogStore.add
  dsimp only
  rcases hid : mapGet s.facts (factId f (scope?.getD source)) with _ | g <;>
    dsimp only
  · exact WF_insertFact w hid now
  · exact w

/-! ### The scope hash as a function of the id set -/

/-- The scope content hash as a function of the raw id list of the bucket. -/
def hashOfIds (ids : List FactId) : String :=
  if ids.isEmpty then "00000000"
  else simpleHash (String.intercalate "|" (List.insertionSort (· ≤ ·) ids))

theorem filterMap_resolve (g : FactId → Option StoredFact) :
    ∀ l : List FactId, (∀ id ∈ l, ∃ f, g id = some f ∧ f.id = id) →
      (l.filterMap g).map (fun f => f.id) = l := by
  intro l
  induction l with
  | nil => intro _; rfl
  | cons id rest ih =>
      intro h
      obtain ⟨f, hf, hfid⟩ := h id (List.mem_cons_self _ _)
      rw [List.filterMap_cons_some hf]
      simp only [List.map_cons]
      rw [ih (fun i hi => h i (List.mem_cons_of_mem _ hi)), hfid]

/-- In a well-formed store, resolving a scope's bucket through the facts map
returns exactly the bucket's ids. -/
theorem findByScope_map_id {s : DatalogStore} (w : WF s) (sc : Scope) :
    (s.findByScope sc).map (fun f => f.id) = bucketIds s sc := by
  unfold DatalogStore.findByScope
  apply filterMap_resolve
  intro id hid
  obtain ⟨f, hf, _⟩ := w.sound sc id hid
  exact ⟨f, hf, w.factsKey id f hf⟩

theorem computeScopeHash_eq_hashOfIds {s : DatalogStore} (w : WF s) (sc : Scope) :
    computeScopeHash s sc = hashOfIds (bucketIds s sc) := by
  unfold computeScopeHash hashOfIds
  rw [← findByScope_map_id w sc]
  have : (List.map (fun f => f.id) (s.findByScope sc)).isEmpty =
      (s.findByScope sc).isEmpty := by
    cases s.findByScope sc <;> rfl
  rw [this]

theorem hashOfIds_perm {l₁ l₂ : List FactId} (h : l₁.Perm l₂) :
    hashOfIds l₁ = hashOfIds l₂ := by
  unfold hashOfIds
  have hsort : List.insertionSort (· ≤ ·) l₁ = List.insertionSort (· ≤ ·) l₂ :=
    List.eq_of_perm_of_sorted
      ((List.perm_insertionSort _ _).trans (h.trans (List.perm_insertionSort _ _).symm))
      (List.sorted_insertionSort _ _) (List.sorted_insertionSort _ _)
  have hemp : l₁.isEmpty = l₂.isEmpty := by
    have := h.length_eq
    cases l₁ <;> cases l₂ <;> simp_all
  rw [hsort, hemp]

theorem getScopeHash_eq_hashOfIds {s : DatalogStore} (w : WF s) (sc : Scope) :
    s.getScopeHash sc = hashOfIds (bucketIds s sc) := by
  unfold DatalogStore.getScopeHash
  rcases hm : mapGet s.scopeMeta sc with _ | meta <;> dsimp
  · exact computeScopeHash_eq_hashOfIds w sc
  · rw [w.metaHash sc meta hm]
    exact computeScopeHash_eq_hashOfIds w sc

/-- Two well-formed stores whose scope buckets have the same members report
the same scope hash: membership determines the hash. -/
theorem getScopeHash_congr_of_mem_iff {s₁ s₂ : DatalogStore} (w₁ : WF s₁)
    (w₂ : WF s₂) (sc : Scope)
    (h : ∀ id, id ∈ bucketIds s₁ sc ↔ id ∈ bucketIds s₂ sc) :
    s₁.getScopeHash sc = s₂.getScopeHash sc := by
  rw [getScopeHash_eq_hashOfIds w₁, getScopeHash_eq_hashOfIds w₂]
  exact hashOfIds_perm
    ((List.perm_ext_iff_of_nodup (w₁.scopeBucketNodup sc)
      (w₂.scopeBucketNodup sc)).2 h)

/-! ### Claim C1: idempotence of `add` -/

/-- Every bucket of every index is duplicate-free. -/
def IndexNodup (s : DatalogStore) : Prop :=
  (∀ sc : Scope, (bucketIds s sc).Nodup) ∧
  (∀ k ids, mapGet s.byKey k = some ids → ids.Nodup) ∧
  (∀ k ids, mapGet s.byValue k = some ids → ids.Nodup)

/-- An `add` whose content address is already present is a complete no-op. -/
theorem add_of_present {s : DatalogStore} {f : Fact} {source : String}
    {scope? : Option Scope} (now : Nat)
    (h : (mapGet s.facts (factId f (scope?.getD source))).isSome = true) :
    s.add f source scope? now = (none, s) := by
  unfold DatalogStore.add
  dsimp only
  rcases hm : mapGet s.facts (factId f (scope?.getD source)) with _ | g
  · rw [hm] at h; cases h
  · rfl

/-- After any `add`, the content address of the added fact is present. -/
theorem mapGet_facts_add_self (s : DatalogStore) (f : Fact) (source : String)
    (scope? : Option Scope) (now : Nat) :
    (mapGet ((s.add f source scope? now).2).facts
      (factId f (scope?.getD source))).isSome = true := by
  unfold DatalogStore.add
  dsimp only
  rcases hm : mapGet s.facts (factId f (scope?.getD source)) with _ | g <;> dsimp only
  · rw [mapGet_insertFact_facts]
    simp
  · rw [hm]
    rfl

/-- C1: if a `StoredFact` with the same content address `(scope, key, value)`
is already present, `add` returns `null` and leaves the whole store (facts
map and all three indices) unchanged; calling `add` twice with the same fact
and scope changes the store exactly once (the first call stores the fact when
it was absent, the second call is a no-op returning `null`); and after an
`add` on a well-formed store every id still appears at most once in every
index. -/
theorem C1_add_idempotent (s : DatalogStore) (f : Fact) (source : String)
    (scope? : Option Scope) (now now' : Nat) :
    ((mapGet s.facts (factId f (scope?.getD source))).isSome = true →
      s.add f source scope? now = (none, s))
    ∧ (s.add f source scope? now).2.add f source scope? now' =
        (none, (s.add f source scope? now).2)
    ∧ (mapGet s.facts (factId f (scope?.getD source)) = none →
        (s.add f source scope? now).1 =
          some ⟨factId f (scope?.getD source), f, scope?.getD source, now, source⟩)
    ∧ (WF s → IndexNodup (s.add f source scope? now).2) := by
  refine ⟨fun h => add_of_present now h,
    add_of_present now' (mapGet_facts_add_self ..), fun h => ?_, fun w => ?_⟩
  · unfold DatalogStore.add
    dsimp only
    rcases hm : mapGet s.facts (factId f (scope?.getD source)) with _ | g
    · rfl
    · rw [hm] at h; cases h
  · have w' := WF_add w f source scope? now
    exact ⟨w'.scopeBucketNodup, w'.keyBucketNodup, w'.valueBucketNodup⟩

/-- Witness for C1: concrete instances discharging each hypothesis — a
duplicate add on a store already holding the fact is a no-op, a fresh add
returns the stored fact, and the indices stay duplicate-free. -/
theorem C1_witness :
    ((emptyStore.add ⟨"k", Value.str "v"⟩ "src" none 0).2.add
        ⟨"k", Value.str "v"⟩ "src" none 1 =
      (none, (emptyStore.add ⟨"k", Value.str "v"⟩ "src" none 0).2))
    ∧ (emptyStore.add ⟨"k", Value.str "v"⟩ "src" none 0).1 =
        some ⟨factId ⟨"k", Value.str "v"⟩ "src", ⟨"k", Value.str "v"⟩, "src", 0, "src"⟩
    ∧ IndexNodup (emptyStore.add ⟨"k", Value.str "v"⟩ "src" none 0).2
    ∧ (emptyStore.add ⟨"k", Value.str "v"⟩ "src" none 0).2.add
        ⟨"k", Value.str "v"⟩ "src" none 2 =
      (none, (emptyStore.add ⟨"k", Value.str "v"⟩ "src" none 0).2) := by
  obtain ⟨-, h2, h3, h4⟩ :=
    C1_add_idempotent emptyStore ⟨"k", Value.str "v"⟩ "src" none 0 1
  obtain ⟨h1', -, -, -⟩ :=
    C1_add_idempotent (emptyStore.add ⟨"k", Value.str "v"⟩ "src" none 0).2
      ⟨"k", Value.str "v"⟩ "src" none 2 3
  exact ⟨h2, h3 rfl, h4 WF_empty, h1' (by decide)⟩

/-! ### Claim C8: the content-address invariant -/

/-- The public mutating operations of the fact store. -/
inductive StoreOp where
  | add (f : Fact) (source : String) (scope? : Option Scope) (now : Nat)
  | addStored (f : StoredFact) (now : Nat)
  | retract (f : Fact) (scope : Scope) (now : Nat)
deriving DecidableEq, Repr

def applyOp (s : DatalogStore) : StoreOp → DatalogStore
  | .add f source scope? now => (s.add f source scope? now).2
  | .addStored f now => (s.addStored f now).2
  | .retract f sc now => (s.retract f sc now).2

def applyOps (ops : List StoreOp) : DatalogStore := ops.foldl applyOp emptyStore

/-- Every entry of the facts map is stored under the content address of its
own (scope, key, value) triple, and the stored fact's `id` field agrees. -/
def WellAddressed (s : DatalogStore) : Prop :=
  ∀ p ∈ s.facts, p.1 = factId p.2.fact p.2.scope ∧ p.2.id = p.1

/-- An operation is well-addressed when, in the `addStored` case, the
pre-built fact's `id` really is its content address (`addStored` trusts the
caller-provided id and never recomputes it). -/
def opOkB : StoreOp → Bool
  | .addStored f _ => f.id == factId f.fact f.scope
  | _ => true

theorem retract_facts_sub (s : DatalogStore) (f : Fact) (sc : Scope) (now : Nat) :
    ∀ p ∈ ((s.retract f sc now).2).facts, p ∈ s.facts := by
  unfold DatalogStore.retract
  dsimp only
  rcases hm : mapGet s.facts (factId f sc) with _ | g <;> dsimp only
  · intro p hp; exact hp
  · intro p hp
    rw [updateScopeHash_facts] at hp
    exact mem_mapDelete hp

theorem WellAddressed_applyOp {s : DatalogStore} (w : WellAddressed s)
    {op : StoreOp} (h : opOkB op = true) : WellAddressed (applyOp s op) := by
  cases op with
  | add f source scope? now =>
      unfold applyOp DatalogStore.add
      dsimp only
      rcases hm : mapGet s.facts (factId f (scope?.getD source)) with _ | g <;> dsimp only
      · intro p hp
        rw [insertFact_facts] at hp
        rcases mem_mapSet hp with rfl | hp'
        · exact ⟨rfl, rfl⟩
        · exact w p hp'
      · exact w
  | addStored f now =>
      unfold applyOp DatalogStore.addStored
      dsimp only
      rcases hm : mapGet s.facts f.id with _ | g <;> dsimp only
      · intro p hp
        rw [insertFact_facts] at hp
        rcases mem_mapSet hp with rfl | hp'
        · exact ⟨by simpa [opOkB] using h, rfl⟩
        · exact w p hp'
      · exact w
  | retract f sc now =>
      intro p hp
      exact w p (retract_facts_sub s f sc now p hp)

/-- C8 counterexample: `addStored` is a public operation, it trusts the
caller-provided id, and inserting a pre-built `StoredFact` whose `id` is not
the content address of its (scope, key, value) triple violates the claimed
invariant. -/
theorem C8_counterexample :
    ¬ WellAddressed (applyOps
      [StoreOp.addStored ⟨"bogus", ⟨"k", Value.str "v"⟩, "s", 0, "n1"⟩ 0]) := by
  unfold WellAddressed
  decide

theorem WellAddressed_foldl :
    ∀ (ops : List StoreOp) (s : DatalogStore), WellAddressed s →
      (∀ op ∈ ops, opOkB op = true) → WellAddressed (ops.foldl applyOp s) := by
  intro ops
  induction ops with
  | nil => intro s w _; exact w
  | cons op rest ih =>
      intro s w h
      exact ih _ (WellAddressed_applyOp w (h op (List.mem_cons_self _ _)))
        (fun o ho => h o (List.mem_cons_of_mem _ ho))

/-- C8 (amended): under every sequence of `add`, `retract`, and `addStored`
operations whose `addStored` arguments carry their true content address,
every stored fact satisfies `id = factId(scope, key, value)` (and the map key
agrees with the fact's `id` field).  Determinism of the address is immediate:
`factId` is a pure function of the triple. -/
theorem C8_invariant (ops : List StoreOp) (h : ∀ op ∈ ops, opOkB op = true) :
    WellAddressed (applyOps ops) :=
  WellAddressed_foldl ops emptyStore (fun p hp => by cases hp) h

/-- Witness for C8: a concrete sequence exercising all three operations. -/
theorem C8_witness :
    WellAddressed (applyOps
      [StoreOp.add ⟨"k", Value.str "v"⟩ "n1" none 0,
       StoreOp.addStored ⟨factId ⟨"j", Value.int 3⟩ "s2", ⟨"j", Value.int 3⟩, "s2", 1, "n2"⟩ 1,
       StoreOp.retract ⟨"k", Value.str "v"⟩ "n1" 2]) :=
  C8_invariant _ (by decide)

/-! ### Claim C3: order independence of the scope hash -/

/-- One call to `DatalogStore.add`. -/
structure AddCall where
  fact : Fact
  source : String
  scope? : Option Scope
  now : Nat
deriving DecidableEq, Repr

/-- The scope the call lands in (`scope ?? source`). -/
def AddCall.actualScope (c : AddCall) : Scope := c.scope?.getD c.source

/-- The content address the call produces. -/
def AddCall.addr (c : AddCall) : FactId := factId c.fact c.actualScope

def addStep (s : DatalogStore) (c : AddCall) : DatalogStore :=
  (s.add c.fact c.source c.scope? c.now).2

/-- Apply a list of `add` calls to an empty store, in order. -/
def applyAdds (l : List AddCall) : DatalogStore := l.foldl addStep emptyStore

theorem add_fresh {s : DatalogStore} {f : Fact} {source : String}
    {scope? : Option Scope} {now : Nat}
    (h : mapGet s.facts (factId f (scope?.getD source)) = none) :
    s.add f source scope? now =
      (some ⟨factId f (scope?.getD source), f, scope?.getD source, now, source⟩,
       insertFact s ⟨factId f (scope?.getD source), f, scope?.getD source, now, source⟩
         now) := by
  unfold DatalogStore.add
  dsimp only
  rw [h]

theorem add_present {s : DatalogStore} {f : Fact} {source : String}
    {scope? : Option Scope} {now : Nat} {g : StoredFact}
    (h : mapGet s.facts (factId f (scope?.getD source)) = some g) :
    s.add f source scope? now = (none, s) :=
  add_of_present now (by rw [h]; rfl)

theorem WF_foldAdds :
    ∀ (l : List AddCall) (s : DatalogStore), WF s → WF (l.foldl addStep s) := by
  intro l
  induction l with
  | nil => intro s w; exact w
  | cons c rest ih => intro s w; exact ih _ (WF_add w ..)

/-- Membership in a scope bucket after a fold of `add` calls, for a start
store whose facts are scope-compatible with the pending calls (a pending call
whose address is already present must target the scope the stored fact lives
in — this is where address collisions matter). -/
theorem bucket_foldAdds :
    ∀ (todo : List AddCall) (s : DatalogStore), WF s →
      (∀ c ∈ todo, ∀ c' ∈ todo, c.addr = c'.addr → c.actualScope = c'.actualScope) →
      (∀ c ∈ todo, ∀ g, mapGet s.facts c.addr = some g → c.actualScope = g.scope) →
      ∀ sc id,
        (id ∈ bucketIds (todo.foldl addStep s) sc ↔
          id ∈ bucketIds s sc ∨ ∃ c ∈ todo, c.actualScope = sc ∧ c.addr = id) := by
  intro todo
  induction todo with
  | nil => intro s _ _ _ sc id; simp
  | cons c rest ih =>
      intro s w H1 H2 sc id
      have H1r : ∀ a ∈ rest, ∀ b ∈ rest, a.addr = b.addr →
          a.actualScope = b.actualScope :=
        fun a ha b hb => H1 a (List.mem_cons_of_mem _ ha) b (List.mem_cons_of_mem _ hb)
      simp only [List.foldl_cons]
      rcases hm : mapGet s.facts c.addr with _ | g
      · -- the head call stores a new fact
        have hstep : addStep s c =
            insertFact s ⟨c.addr, c.fact, c.actualScope, c.now, c.source⟩ c.now := by
          unfold addStep
          rw [add_fresh hm]
          rfl
        have w' : WF (addStep s c) := WF_add w ..
        have H2r : ∀ a ∈ rest, ∀ g', mapGet (addStep s c).facts a.addr = some g' →
            a.actualScope = g'.scope := by
          intro a ha g' hg'
          rw [hstep, mapGet_insertFact_facts] at hg'
          split at hg'
          next heq =>
            cases hg'
            exact H1 a (List.mem_cons_of_mem _ ha) c (List.mem_cons_self _ _)
              (by simpa using heq.symm)
          next => exact H2 a (List.mem_cons_of_mem _ ha) g' hg'
        rw [ih (addStep s c) w' H1r H2r sc id]
        have hbucket : id ∈ bucketIds (addStep s c) sc ↔
            id ∈ bucketIds s sc ∨ (c.actualScope = sc ∧ c.addr = id) := by
          rw [hstep, bucketIds_insertFact]
          dsimp only
          split
          next hsc =>
            rw [mem_setAdd]
            constructor
            · rintro (h | rfl)
              · exact Or.inl h
              · exact Or.inr ⟨hsc, rfl⟩
            · rintro (h | ⟨-, rfl⟩)
              · exact Or.inl h
              · exact Or.inr rfl
          next hsc =>
            constructor
            · exact Or.inl
            · rintro (h | ⟨hsc', -⟩)
              · exact h
              · exact absurd hsc' hsc
        rw [hbucket]
        simp only [List.mem_cons]
        constructor
        · rintro ((h | h) | ⟨a, ha, h1, h2⟩)
          · exact Or.inl h
          · exact Or.inr ⟨c, Or.inl rfl, h⟩
          · exact Or.inr ⟨a, Or.inr ha, h1, h2⟩
        · rintro (h | ⟨a, rfl | ha, h1, h2⟩)
          · exact Or.inl (Or.inl h)
          · exact Or.inl (Or.inr ⟨h1, h2⟩)
          · exact Or.inr ⟨a, ha, h1, h2⟩
      · -- the head call is a duplicate address: complete no-op
        have hstep : addStep s c = s := by
          unfold addStep
          rw [add_present hm]
        rw [hstep, ih s w H1r
          (fun a ha => H2 a (List.mem_cons_of_mem _ ha)) sc id]
        have habsorb : c.actualScope = sc → id = c.addr → id ∈ bucketIds s sc := by
          rintro hsc rfl
          have hgs := H2 c (List.mem_cons_self _ _) g hm
          have := w.complete c.addr g hm
          rw [← hgs, hsc] at this
          exact this
        simp only [List.mem_cons]
        constructor
        · rintro (h | ⟨a, ha, h1, h2⟩)
          · exact Or.inl h
          · exact Or.inr ⟨a, Or.inr ha, h1, h2⟩
        · rintro (h | ⟨a, rfl | ha, h1, h2⟩)
          · exact Or.inl h
          · exact Or.inl (habsorb h1 h2.symm)
          · exact Or.inr ⟨a, ha, h1, h2⟩

/-- C3 counterexample: the content address is a colon-join without escaping,
so the two *distinct* facts `("b:c","v")` in scope `"a"` and `("c","v")` in
scope `"a:b"` share the address `a:b:c:"v"`.  Applying this two-element fact
set to empty stores in its two orders yields different content hashes for
scope `"a"`: whichever call runs first claims the address, and the second is
dropped as a duplicate.  This refutes the unconditional order-independence
claim. -/
theorem C3_counterexample :
    [AddCall.mk ⟨"b:c", Value.str "v"⟩ "src" (some "a") 0,
     AddCall.mk ⟨"c", Value.str "v"⟩ "src" (some "a:b") 0].Perm
      [AddCall.mk ⟨"c", Value.str "v"⟩ "src" (some "a:b") 0,
       AddCall.mk ⟨"b:c", Value.str "v"⟩ "src" (some "a") 0] ∧
    (applyAdds [AddCall.mk ⟨"b:c", Value.str "v"⟩ "src" (some "a") 0,
        AddCall.mk ⟨"c", Value.str "v"⟩ "src" (some "a:b") 0]).getScopeHash "a" ≠
      (applyAdds [AddCall.mk ⟨"c", Value.str "v"⟩ "src" (some "a:b") 0,
        AddCall.mk ⟨"b:c", Value.str "v"⟩ "src" (some "a") 0]).getScopeHash "a" := by
  decide

/-- C3 (amended): applying a finite set of facts to two empty stores in any
two insertion orders yields identical content hashes for every scope,
provided no two calls in the set produce the same content address for
different scopes (the address is a colon-join of scope, key and
`JSON.stringify(value)` without escaping, so e.g. scope `"a"`/key `"b:c"`
collides with scope `"a:b"`/key `"c"`; the counterexample shows the claim
fails without this proviso).  The hash itself is order-independent because
the member ids are sorted lexicographically before hashing. -/
theorem C3_order_independence (l l' : List AddCall) (hperm : l.Perm l')
    (hcompat : ∀ c ∈ l, ∀ c' ∈ l, c.addr = c'.addr → c.actualScope = c'.actualScope) :
    ∀ sc : Scope, (applyAdds l).getScopeHash sc = (applyAdds l').getScopeHash sc := by
  intro sc
  have hcompat' : ∀ c ∈ l', ∀ c' ∈ l', c.addr = c'.addr →
      c.actualScope = c'.actualScope :=
    fun c hc c' hc' => hcompat c (hperm.mem_iff.2 hc) c' (hperm.mem_iff.2 hc')
  have hempty : ∀ c : AddCall, ∀ g, mapGet emptyStore.facts c.addr = some g →
      c.actualScope = g.scope := by
    intro c g h
    cases h
  apply getScopeHash_congr_of_mem_iff (WF_foldAdds l emptyStore WF_empty)
    (WF_foldAdds l' emptyStore WF_empty) sc
  intro id
  rw [bucket_foldAdds l emptyStore WF_empty hcompat (fun c _ => hempty c) sc id,
    bucket_foldAdds l' emptyStore WF_empty hcompat' (fun c _ => hempty c) sc id]
  constructor
  · rintro (h | ⟨c, hc, h1, h2⟩)
    · exact Or.inl h
    · exact Or.inr ⟨c, hperm.mem_iff.1 hc, h1, h2⟩
  · rintro (h | ⟨c, hc, h1, h2⟩)
    · exact Or.inl h
    · exact Or.inr ⟨c, hperm.mem_iff.2 hc, h1, h2⟩

/-- Witness for C3: two collision-free calls applied in both orders give the
same hash for their scopes. -/
theorem C3_witness :
    (applyAdds [AddCall.mk ⟨"x", Value.int 1⟩ "n1" (some "sA") 0,
        AddCall.mk ⟨"y", Value.int 2⟩ "n1" (some "sA") 1]).getScopeHash "sA" =
      (applyAdds [AddCall.mk ⟨"y", Value.int 2⟩ "n1" (some "sA") 1,
        AddCall.mk ⟨"x", Value.int 1⟩ "n1" (some "sA") 0]).getScopeHash "sA" :=
  C3_order_independence _ _ (by decide) (by decide) "sA"

/-! ### Claim C2: convergence after one bidirectional sync round -/

theorem mapGet_of_mem_of_nodup {α : Type} :
    ∀ {m : List (String × α)}, (m.map Prod.fst).Nodup →
      ∀ {k : String} {v : α}, (k, v) ∈ m → mapGet m k = some v := by
  intro m
  induction m with
  | nil => intro _ k v h; cases h
  | cons p rest ih =>
      intro hnd k v h
      obtain ⟨a, b⟩ := p
      rw [List.map_cons, List.nodup_cons] at hnd
      rcases List.mem_cons.1 h with h' | h'
      · cases h'
        simp [mapGet]
      · have hka : a ≠ k := by
          rintro rfl
          exact hnd.1 (List.mem_map.2 ⟨(a, v), h', rfl⟩)
        simp only [mapGet, if_neg hka]
        exact ih hnd.2 h'

/-- In a well-formed store the ids of `all()` are exactly `allIds()`. -/
theorem all_map_id {s : DatalogStore} (w : WF s) :
    s.all.map (fun f => f.id) = s.allIds := by
  unfold DatalogStore.all DatalogStore.allIds
  rw [List.map_map]
  apply List.map_congr_left
  intro p hp
  exact w.factsKey p.1 p.2 (mapGet_of_mem_of_nodup w.factsNodup hp)

/-- Scope-bucket membership, characterised through `all()`. -/
theorem mem_bucket_iff_all {s : DatalogStore} (w : WF s) (sc : Scope) (id : FactId) :
    id ∈ bucketIds s sc ↔ ∃ f ∈ s.all, f.scope = sc ∧ f.id = id := by
  constructor
  · intro h
    obtain ⟨f, hf, hfsc⟩ := w.sound sc id h
    exact ⟨f, List.mem_map.2 ⟨(id, f), mapGet_mem hf, rfl⟩, hfsc, w.factsKey id f hf⟩
  · rintro ⟨f, hf, hsc, rfl⟩
    obtain ⟨p, hp, hpf⟩ := List.mem_map.1 hf
    obtain ⟨k, g⟩ := p
    cases hpf
    have hget : mapGet s.facts k = some g := mapGet_of_mem_of_nodup w.factsNodup hp
    have hk : g.id = k := w.factsKey k g hget
    have hc := w.complete k g hget
    rw [hsc] at hc
    rw [hk]
    exact hc

/-- One `addStored` application, as done for each fact of a `sync-response`
(the receipt timestamp `now` only enters the scope metadata). -/
def addStoredStep (now : Nat) (s : DatalogStore) (f : StoredFact) : DatalogStore :=
  (s.addStored f now).2

theorem WF_foldAddStored (now : Nat) :
    ∀ (l : List StoredFact) (s : DatalogStore), WF s →
      WF (l.foldl (addStoredStep now) s) := by
  intro l
  induction l with
  | nil => intro s w; exact w
  | cons f rest ih => intro s w; exact ih _ (WF_addStored w f now)

/-- Bucket membership after folding a list of pairwise-distinct, everywhere-
fresh stored facts into a well-formed store. -/
theorem bucket_foldAddStored (now : Nat) :
    ∀ (l : List StoredFact) (s : DatalogStore), WF s →
      l.Pairwise (fun f g => f.id ≠ g.id) →
      (∀ f ∈ l, mapGet s.facts f.id = none) →
      ∀ sc id,
        (id ∈ bucketIds (l.foldl (addStoredStep now) s) sc ↔
          id ∈ bucketIds s sc ∨ ∃ f ∈ l, f.scope = sc ∧ f.id = id) := by
  intro l
  induction l with
  | nil => intro s _ _ _ sc id; simp
  | cons f rest ih =>
      intro s w hpw hfresh sc id
      have hmf := hfresh f (List.mem_cons_self _ _)
      have hstep : addStoredStep now s f = insertFact s f now := by
        unfold addStoredStep DatalogStore.addStored
        rw [hmf]
      have w' : WF (addStoredStep now s f) := WF_addStored w f now
      rw [List.pairwise_cons] at hpw
      have hfresh' : ∀ g ∈ rest, mapGet (addStoredStep now s f).facts g.id = none := by
        intro g hg
        rw [hstep, mapGet_insertFact_facts,
          if_neg (hpw.1 g hg), hfresh g (List.mem_cons_of_mem _ hg)]
      simp only [List.foldl_cons]
      rw [ih (addStoredStep now s f) w' hpw.2 hfresh' sc id]
      have hbucket : id ∈ bucketIds (addStoredStep now s f) sc ↔
          id ∈ bucketIds s sc ∨ (f.scope = sc ∧ f.id = id) := by
        rw [hstep, bucketIds_insertFact]
        split
        next hsc =>
          rw [mem_setAdd]
          constructor
          · rintro (h | rfl)
            · exact Or.inl h
            · exact Or.inr ⟨hsc, rfl⟩
          · rintro (h | ⟨-, rfl⟩)
            · exact Or.inl h
            · exact Or.inr rfl
        next hsc =>
          constructor
          · exact Or.inl
          · rintro (h | ⟨hsc', -⟩)
            · exact h
            · exact absurd hsc' hsc
      rw [hbucket]
      simp only [List.mem_cons]
      constructor
      · rintro ((h | h) | ⟨g, hg, h1, h2⟩)
        · exact Or.inl h
        · exact Or.inr ⟨f, Or.inl rfl, h⟩
        · exact Or.inr ⟨g, Or.inr hg, h1, h2⟩
      · rintro (h | ⟨g, rfl | hg, h1, h2⟩)
        · exact Or.inl (Or.inl h)
        · exact Or.inl (Or.inr ⟨h1, h2⟩)
        · exact Or.inr ⟨g, hg, h1, h2⟩

/-- The `sync-response` the holder sends back for a `sync-request{haveIds}`:
all of its facts whose id is not in the requester's id set
(`store.all().filter(f => !haveSet.has(f.id))`). -/
def syncResponseTo (receiver sender : DatalogStore) : List StoredFact :=
  sender.all.filter (fun f => decide (f.id ∉ receiver.allIds))

/-- One round of `sync-request`/`sync-response` in both directions: each node
sends its full id set, receives the other's missing facts, and applies each
of them via `addStored`. -/
def syncRound (a b : DatalogStore) (now : Nat) : DatalogStore × DatalogStore :=
  ((syncResponseTo a b).foldl (addStoredStep now) a,
   (syncResponseTo b a).foldl (addStoredStep now) b)

/-- C2: for two well-formed nodes holding disjoint fact sets, after one round
of `sync-request`/`sync-response` in both directions `getScopeHash` agrees on
every scope. -/
theorem C2_convergence (a b : DatalogStore) (now : Nat) (wa : WF a) (wb : WF b)
    (hdisj : ∀ id, id ∈ a.allIds → id ∉ b.allIds) :
    ∀ sc : Scope,
      ((syncRound a b now).1).getScopeHash sc =
        ((syncRound a b now).2).getScopeHash sc := by
  intro sc
  have hidOf : ∀ {s : DatalogStore}, WF s → ∀ f ∈ s.all, f.id ∈ s.allIds := by
    intro s w f hf
    rw [← all_map_id w]
    exact List.mem_map.2 ⟨f, hf, rfl⟩
  -- under disjointness nothing is filtered out of either response
  have hrespA : syncResponseTo a b = b.all := by
    unfold syncResponseTo
    apply List.filter_eq_self.2
    intro f hf
    exact decide_eq_true fun hmem => hdisj f.id hmem (hidOf wb f hf)
  have hrespB : syncResponseTo b a = a.all := by
    unfold syncResponseTo
    apply List.filter_eq_self.2
    intro f hf
    exact decide_eq_true fun hmem => hdisj f.id (hidOf wa f hf) hmem
  have hpwB : b.all.Pairwise (fun f g => f.id ≠ g.id) := by
    have hnd : b.allIds.Nodup := wb.factsNodup
    rw [← all_map_id wb] at hnd
    exact (List.pairwise_map).1 hnd
  have hpwA : a.all.Pairwise (fun f g => f.id ≠ g.id) := by
    have hnd : a.allIds.Nodup := wa.factsNodup
    rw [← all_map_id wa] at hnd
    exact (List.pairwise_map).1 hnd
  have hfreshA : ∀ f ∈ b.all, mapGet a.facts f.id = none := by
    intro f hf
    rw [mapGet_eq_none_iff]
    exact fun hmem => hdisj f.id hmem (hidOf wb f hf)
  have hfreshB : ∀ f ∈ a.all, mapGet b.facts f.id = none := by
    intro f hf
    rw [mapGet_eq_none_iff]
    exact hdisj f.id (hidOf wa f hf)
  have wA' : WF (syncRound a b now).1 := WF_foldAddStored now _ _ wa
  have wB' : WF (syncRound a b now).2 := WF_foldAddStored now _ _ wb
  apply getScopeHash_congr_of_mem_iff wA' wB' sc
  intro id
  show id ∈ bucketIds ((syncResponseTo a b).foldl (addStoredStep now) a) sc ↔
    id ∈ bucketIds ((syncResponseTo b a).foldl (addStoredStep now) b) sc
  rw [hrespA, hrespB,
    bucket_foldAddStored now b.all a wa hpwB hfreshA sc id,
    bucket_foldAddStored now a.all b wb hpwA hfreshB sc id,
    mem_bucket_iff_all wa sc id, mem_bucket_iff_all wb sc id]
  exact Or.comm

/-- Witness for C2: two concrete single-fact nodes converge. -/
theorem C2_witness :
    ((syncRound (applyAdds [AddCall.mk ⟨"x", Value.int 1⟩ "n1" none 0])
        (applyAdds [AddCall.mk ⟨"y", Value.int 2⟩ "n2" none 0]) 5).1).getScopeHash "n1" =
      ((syncRound (applyAdds [AddCall.mk ⟨"x", Value.int 1⟩ "n1" none 0])
        (applyAdds [AddCall.mk ⟨"y", Value.int 2⟩ "n2" none 0]) 5).2).getScopeHash "n1" :=
  C2_convergence _ _ 5 (WF_foldAdds _ _ WF_empty) (WF_foldAdds _ _ WF_empty)
    (by decide) "n1"

/-! ### The group consensus state machine (`src/network/group.ts`) -/

/-- `GroupInfo.consensus`: `'unanimous' | 'majority' | { threshold: number }`. -/
inductive ConsensusRule where
  | unanimous
  | majority
  | threshold (t : Nat)
deriving DecidableEq, Repr

structure GroupInfo where
  id : String
  name : String
  members : List String
  consensus : ConsensusRule
deriving DecidableEq, Repr

/-- `Proposal` of `src/network/group.ts`; `proposer` models the `from` field
(a reserved word in Lean). -/
structure Proposal where
  id : String
  groupId : String
  fact : StoredFact
  proposer : String
  votes : List (String × Bool)
  timestamp : Nat
deriving DecidableEq, Repr

/-- `PendingInvite`; `inviter` models the `from` field. -/
structure PendingInvite where
  groupId : String
  groupName : String
  inviter : String
  members : List String
  timestamp : Nat
deriving DecidableEq, Repr

/-- The state owned by a `GroupManager` plus the fact store it commits to. -/
structure GroupState where
  nodeId : String
  groups : List (String × GroupInfo)
  proposals : List (String × Proposal)
  pendingInvites : List (String × PendingInvite)
  store : DatalogStore
deriving DecidableEq, Repr

/-- The group-related messages of `src/network/protocol.ts`.  Note that
`groupInvite` carries `groupId`, `groupName`, `from` and `members` only —
there is no consensus-rule field (protocol.ts line 14). -/
inductive GroupMsg where
  | groupInvite (groupId groupName inviter : String) (members : List String)
  | groupInviteResponse (groupId : String) (accepted : Bool) (responder : String)
  | groupProposal (groupId proposalId : String) (fact : StoredFact) (proposer : String)
  | groupVote (groupId proposalId : String) (vote : Bool) (voter : String)
  | groupSyncRequest (groupId : String) (haveIds : List FactId)
  | groupSyncResponse (groupId : String) (facts : List StoredFact)
deriving DecidableEq, Repr

/-- The pass/reject decision of `checkProposalConsensus`, as a function of the
rule, the *current* member count `n` and the yes/no tallies.
`majority` compares `yesVotes > totalMembers / 2` with JS exact (float)
division, which on integers is `2 * yes > n`; the `threshold` rejection
bound `noVotes > totalMembers - threshold` is JS number subtraction, which
can be negative, so it is taken in `Int`. -/
def checkVotes (rule : ConsensusRule) (n yes no : Nat) : Bool × Bool :=
  match rule with
  | .unanimous => (decide (yes = n), decide (0 < no))
  | .majority => (decide (n < 2 * yes), decide (n < 2 * no))
  | .threshold t => (decide (t ≤ yes), decide ((n : Int) - (t : Int) < (no : Int)))

/-- `votes.filter(v => v).length` over the vote map's values. -/
def yesVotes (p : Proposal) : Nat := (p.votes.map Prod.snd).count true

def noVotes (p : Proposal) : Nat := (p.votes.map Prod.snd).count false

/-- `checkProposalConsensus`: silently returns on unknown proposal or group;
on pass commits the proposal's fact through `addStored` and deletes the
proposal; on reject just deletes it; otherwise leaves everything open. -/
def checkProposalConsensus (g : GroupState) (pid : String) (now : Nat) :
    GroupState :=
  match mapGet g.proposals pid with
  | none => g
  | some p =>
      match mapGet g.groups p.groupId with
      | none => g
      | some grp =>
          let pr := checkVotes grp.consensus grp.members.length (yesVotes p) (noVotes p)
          if pr.1 then
            { g with
              store := (g.store.addStored p.fact now).2
              proposals := mapDelete g.proposals pid }
          else if pr.2 then
            { g with proposals := mapDelete g.proposals pid }
          else g

/-- `handleVote`: looks the proposal up by `proposalId` only — the message's
`groupId` field (the first argument here) is never read — records the vote
(overwriting any previous vote by that voter) and re-evaluates consensus. -/
def handleVote (g : GroupState) (_msgGroupId pid : String) (vote : Bool)
    (voter : String) (now : Nat) : GroupState :=
  match mapGet g.proposals pid with
  | none => g
  | some p =>
      let p' := { p with votes := mapSet p.votes voter vote }
      checkProposalConsensus { g with proposals := mapSet g.proposals pid p' } pid now

/-- `handleProposal`: ignored when the group is unknown; otherwise records the
proposal with the sender's vote pre-set to approve. -/
def handleProposal (g : GroupState) (groupId pid : String) (fact : StoredFact)
    (proposer : String) (now : Nat) : GroupState :=
  match mapGet g.groups groupId with
  | none => g
  | some _ =>
      { g with proposals :=
          mapSet g.proposals pid ⟨pid, groupId, fact, proposer, [(proposer, true)], now⟩ }

/-- `proposeFact`: creates the proposal with the creator's vote pre-set to
approve, sends `group-proposal` to every other member, and immediately
evaluates consensus.  The randomly generated proposal id is a parameter. -/
def proposeFact (g : GroupState) (groupId : String) (fact : StoredFact)
    (pid : String) (now : Nat) : GroupState × List (String × GroupMsg) :=
  match mapGet g.groups groupId with
  | none => (g, [])
  | some grp =>
      let proposal : Proposal := ⟨pid, groupId, fact, g.nodeId, [(g.nodeId, true)], now⟩
      let g1 := { g with proposals := mapSet g.proposals pid proposal }
      let sends := (grp.members.filter (fun m => decide (m ≠ g.nodeId))).map
        (fun m => (m, GroupMsg.groupProposal groupId pid fact g.nodeId))
      (checkProposalConsensus g1 pid now, sends)

/-- `invitePeer`: refuses unknown groups and existing members; otherwise
sends a `group-invite` built from the group's id, name and member list
(the consensus rule is not part of the message). -/
def invitePeer (g : GroupState) (groupId peerId : String) :
    Bool × List (String × GroupMsg) :=
  match mapGet g.groups groupId with
  | none => (false, [])
  | some grp =>
      if peerId ∈ grp.members then (false, [])
      else (true, [(peerId, GroupMsg.groupInvite grp.id grp.name g.nodeId grp.members)])

/-- `handleInvite`: records the pending invite. -/
def handleInvite (g : GroupState) (groupId groupName inviter : String)
    (members : List String) (now : Nat) : GroupState :=
  { g with pendingInvites :=
      mapSet g.pendingInvites groupId ⟨groupId, groupName, inviter, members, now⟩ }

/-- `respondToInvite`: on accept, records the group locally with consensus
rule hard-coded to `'unanimous'` (the source comment says `// Default`) and
requests a sync of the group scope from every previous member; in both cases
it notifies every previous member of the decision. -/
def respondToInvite (g : GroupState) (groupId : String) (accept : Bool) :
    GroupState × List (String × GroupMsg) :=
  match mapGet g.pendingInvites groupId with
  | none => (g, [])
  | some invite =>
      let g1 : GroupState := { g with pendingInvites := mapDelete g.pendingInvites groupId }
      let joined : GroupInfo :=
        ⟨groupId, invite.groupName, invite.members ++ [g.nodeId], .unanimous⟩
      let g2 : GroupState :=
        if accept then { g1 with groups := mapSet g1.groups groupId joined }
        else g1
      let syncSends : List (String × GroupMsg) :=
        if accept then
          invite.members.map (fun m => (m, GroupMsg.groupSyncRequest groupId []))
        else []
      (g2, syncSends ++ invite.members.map
        (fun m => (m, GroupMsg.groupInviteResponse groupId accept g.nodeId)))

/-! ### Claim C4: consensus arithmetic -/

theorem half_lt_iff (n m : Nat) : (n : ℚ) / 2 < (m : ℚ) ↔ n < 2 * m := by
  rw [div_lt_iff₀ (by norm_num : (0 : ℚ) < 2)]
  rw [show ((m : ℚ) * 2) = ((2 * m : Nat) : ℚ) by push_cast; ring]
  exact_mod_cast Iff.rfl

/-- A concrete group fact for the consensus scenarios. -/
def demoFact : StoredFact :=
  ⟨factId ⟨"color", Value.str "red"⟩ "g:root", ⟨"color", Value.str "red"⟩,
   "g:root", 0, "a"⟩

/-- Node `a`'s state: a 3-member group `g` under the given rule, with an open
proposal `p` by `a` carrying the creator's auto-approval. -/
def demoState (rule : ConsensusRule) : GroupState :=
  ⟨"a", [("g", ⟨"g", "G", ["a", "b", "c"], rule⟩)],
   [("p", ⟨"p", "g", demoFact, "a", [("a", true)], 0⟩)], [], emptyStore⟩

/-- C4: consensus evaluation with the group's current member count `n` and
the tallies of the vote map decides: `unanimous` passes iff `yes = n`,
rejected iff `no > 0`; `majority` passes iff `yes > n/2` (exact division),
rejected iff `no > n/2`; `threshold t` passes iff `yes ≥ t`, rejected iff
`no > n − t` (integer subtraction, possibly negative).  Concretely, in the
3-member majority group where the creator auto-approved, the second approval
passes the proposal (it is deleted and its fact committed), while under
`threshold 3` the proposal stays open at two approvals and passes on the
third. -/
theorem C4_consensus_rules :
    (∀ n yes no : Nat,
      ((checkVotes ConsensusRule.unanimous n yes no).1 = true ↔ yes = n)
      ∧ ((checkVotes ConsensusRule.unanimous n yes no).2 = true ↔ 0 < no)
      ∧ ((checkVotes ConsensusRule.majority n yes no).1 = true ↔
          (n : ℚ) / 2 < (yes : ℚ))
      ∧ ((checkVotes ConsensusRule.majority n yes no).2 = true ↔
          (n : ℚ) / 2 < (no : ℚ))
      ∧ (∀ t : Nat,
          ((checkVotes (ConsensusRule.threshold t) n yes no).1 = true ↔ t ≤ yes)
          ∧ ((checkVotes (ConsensusRule.threshold t) n yes no).2 = true ↔
              (n : Int) - (t : Int) < (no : Int))))
    ∧ (mapGet (handleVote (demoState ConsensusRule.majority) "g" "p" true "b" 1).proposals
        "p" = none
       ∧ (mapGet (handleVote (demoState ConsensusRule.majority) "g" "p" true "b" 1).store.facts
          demoFact.id).isSome = true)
    ∧ ((mapGet (handleVote (demoState (ConsensusRule.threshold 3)) "g" "p" true "b" 1).proposals
         "p").isSome = true
       ∧ (handleVote (demoState (ConsensusRule.threshold 3)) "g" "p" true "b" 1).store
          = emptyStore
       ∧ mapGet (handleVote
            (handleVote (demoState (ConsensusRule.threshold 3)) "g" "p" true "b" 1)
            "g" "p" true "c" 2).proposals "p" = none
       ∧ (mapGet (handleVote
            (handleVote (demoState (ConsensusRule.threshold 3)) "g" "p" true "b" 1)
            "g" "p" true "c" 2).store.facts demoFact.id).isSome = true) := by
  refine ⟨fun n yes no => ⟨?_, ?_, ?_, ?_, fun t => ⟨?_, ?_⟩⟩, by decide, by decide⟩
  · simp [checkVotes, eq_comm]
  · simp [checkVotes]
  · simp only [checkVotes, decide_eq_true_eq]
    rw [half_lt_iff]
  · simp only [checkVotes, decide_eq_true_eq]
    rw [half_lt_iff]
  · simp [checkVotes]
  · simp [checkVotes]

/-! ### Claim C7: proposal lifecycle and silently-ignored references -/

theorem mapGet_mapDelete_self {α : Type} :
    ∀ {m : List (String × α)}, (m.map Prod.fst).Nodup →
      ∀ k, mapGet (mapDelete m k) k = none := by
  intro m
  induction m with
  | nil => intro _ k; rfl
  | cons p rest ih =>
      intro hnd k
      obtain ⟨a, b⟩ := p
      rw [List.map_cons, List.nodup_cons] at hnd
      by_cases hak : a = k
      · subst hak
        simp only [mapDelete, if_pos rfl]
        rw [mapGet_eq_none_iff]
        exact hnd.1
      · simp only [mapDelete, if_neg hak, mapGet, if_neg hak]
        exact ih hnd.2 k

theorem addStored_self_present (s : DatalogStore) (f : StoredFact) (now : Nat) :
    (mapGet ((s.addStored f now).2).facts f.id).isSome = true := by
  unfold DatalogStore.addStored
  rcases hm : mapGet s.facts f.id with _ | g <;> dsimp only
  · rw [mapGet_insertFact_facts]
    simp
  · rw [hm]
    rfl

theorem addStored_of_present {s : DatalogStore} {f : StoredFact} (now : Nat)
    (h : (mapGet s.facts f.id).isSome = true) : s.addStored f now = (false, s) := by
  unfold DatalogStore.addStored
  rcases hm : mapGet s.facts f.id with _ | g
  · rw [hm] at h; cases h
  · rfl

/-- C7 (amended): the proposal lifecycle is `open → {passed, rejected}` and
terminal.  On pass the proposal's fact is committed through the idempotent
`addStored` path (a repeated commit is a no-op) and the proposal is deleted;
on reject it is deleted with no change to the store; after either transition
the proposal id resolves to nothing, and a `group-vote` whose `proposalId` is
unknown — in particular any vote after the terminal transition — is silently
ignored with no state change, as is a `group-proposal` whose `groupId` is
unknown.  (The original claim's "any vote referencing an unknown group is
ignored" fails: `handleVote` never reads the message's `groupId`; see the
counterexample.) -/
theorem C7_proposal_lifecycle (g : GroupState) (pid gid' : String) (p : Proposal)
    (grp : GroupInfo) (now now' : Nat) (v : Bool) (voter : String)
    (hnd : (g.proposals.map Prod.fst).Nodup)
    (hp : mapGet g.proposals pid = some p)
    (hgrp : mapGet g.groups p.groupId = some grp) :
    ((checkVotes grp.consensus grp.members.length (yesVotes p) (noVotes p)).1 = true →
      checkProposalConsensus g pid now =
        { g with
          store := (g.store.addStored p.fact now).2
          proposals := mapDelete g.proposals pid })
    ∧ (g.store.addStored p.fact now).2.addStored p.fact now' =
        (false, (g.store.addStored p.fact now).2)
    ∧ ((checkVotes grp.consensus grp.members.length (yesVotes p) (noVotes p)).1 = false →
       (checkVotes grp.consensus grp.members.length (yesVotes p) (noVotes p)).2 = true →
      checkProposalConsensus g pid now = { g with proposals := mapDelete g.proposals pid })
    ∧ mapGet (mapDelete g.proposals pid) pid = none
    ∧ (∀ (g' : GroupState) (pid' : String), mapGet g'.proposals pid' = none →
        handleVote g' gid' pid' v voter now' = g')
    ∧ (∀ (fact : StoredFact) (proposer : String), mapGet g.groups gid' = none →
        handleProposal g gid' pid fact proposer now' = g) := by
  refine ⟨fun hpass => ?_, addStored_of_present now' (addStored_self_present ..),
    fun hfail hrej => ?_, mapGet_mapDelete_self hnd pid, fun g' pid' h => ?_,
    fun fact proposer h => ?_⟩
  · unfold checkProposalConsensus
    rw [hp]
    dsimp only
    rw [hgrp]
    dsimp only
    rw [hpass]
    rfl
  · unfold checkProposalConsensus
    rw [hp]
    dsimp only
    rw [hgrp]
    dsimp only
    rw [hfail, hrej]
    rfl
  · unfold handleVote
    rw [h]
  · unfold handleProposal
    rw [h]

/-- C7 counterexample: `handleVote` looks the proposal up by `proposalId`
alone and never reads the message's `groupId`, so a `group-vote` naming the
unknown group `"zzz"` but the open proposal `"p"` is processed normally (the
vote is recorded) instead of being silently ignored with no state change. -/
theorem C7_counterexample :
    handleVote (demoState (ConsensusRule.threshold 3)) "zzz" "p" true "b" 1 ≠
      demoState (ConsensusRule.threshold 3) := by
  decide

/-- Witness for C7 at a concrete state: the deleted proposal id resolves to
nothing, a vote on an unknown proposal id is a perfect no-op, and a repeated
commit of the proposal's fact is rejected as a duplicate. -/
theorem C7_witness :
    mapGet (mapDelete (demoState ConsensusRule.unanimous).proposals "p") "p" = none
    ∧ handleVote (demoState ConsensusRule.unanimous) "zzz" "nosuch" true "b" 2 =
        demoState ConsensusRule.unanimous
    ∧ ((demoState ConsensusRule.unanimous).store.addStored demoFact 1).2.addStored
        demoFact 2 =
        (false, ((demoState ConsensusRule.unanimous).store.addStored demoFact 1).2) := by
  obtain ⟨-, h2, -, h4, h5, -⟩ :=
    C7_proposal_lifecycle (demoState ConsensusRule.unanimous) "p" "zzz"
      ⟨"p", "g", demoFact, "a", [("a", true)], 0⟩
      ⟨"g", "G", ["a", "b", "c"], ConsensusRule.unanimous⟩
      1 2 true "b" (by decide) rfl rfl
  exact ⟨h4, h5 _ "nosuch" rfl, h2⟩

/-! ### Claim C10: accepted invitations always record rule `unanimous` -/

/-- C10: the `group-invite` message carries no consensus-rule field, and
`respondToInvite` hard-codes `consensus: 'unanimous'` for the joining node.
So (i) accepting an invite records the group with rule `unanimous` and the
member list extended by the joiner; (ii) the invite a peer receives is
identical whatever rule the inviter's group actually has; and (iii) the rules
genuinely evaluate differently (majority and threshold groups reach decisions
that a unanimous evaluator still considers open), so the joining member
evaluates future proposals under a different rule than the other members. -/
theorem C10_join_unanimous (g : GroupState) (gid : String) (invite : PendingInvite)
    (hinv : mapGet g.pendingInvites gid = some invite) :
    mapGet ((respondToInvite g gid true).1).groups gid =
      some ⟨gid, invite.groupName, invite.members ++ [g.nodeId],
        ConsensusRule.unanimous⟩
    ∧ (∀ (grp : GroupInfo) (r₁ r₂ : ConsensusRule) (peer : String),
        invitePeer { g with groups := mapSet g.groups gid { grp with consensus := r₁ } }
            gid peer =
          invitePeer { g with groups := mapSet g.groups gid { grp with consensus := r₂ } }
            gid peer)
    ∧ checkVotes ConsensusRule.majority 3 2 0 = (true, false)
    ∧ checkVotes ConsensusRule.unanimous 3 2 0 = (false, false)
    ∧ checkVotes (ConsensusRule.threshold 1) 3 1 0 = (true, false)
    ∧ checkVotes ConsensusRule.unanimous 3 1 0 = (false, false) := by
  refine ⟨?_, ?_, by decide, by decide, by decide, by decide⟩
  · unfold respondToInvite
    rw [hinv]
    dsimp only
    rw [if_pos rfl, mapGet_mapSet, if_pos rfl]
  · intro grp r₁ r₂ peer
    unfold invitePeer
    dsimp only
    rw [mapGet_mapSet, if_pos rfl, mapGet_mapSet, if_pos rfl]

/-- Witness for C10: a concrete accepted invite lands with rule `unanimous`. -/
theorem C10_witness :
    mapGet ((respondToInvite
      ⟨"me", [], [], [("g", ⟨"g", "G", "a", ["a", "b"], 0⟩)], emptyStore⟩
      "g" true).1).groups "g" =
      some ⟨"g", "G", ["a", "b", "me"], ConsensusRule.unanimous⟩ :=
  (C10_join_unanimous
    ⟨"me", [], [], [("g", ⟨"g", "G", "a", ["a", "b"], 0⟩)], emptyStore⟩
    "g" ⟨"g", "G", "a", ["a", "b"], 0⟩ rfl).1

/-! ### The mesh message handlers (`src/network/mesh.ts`)

`Mesh` keeps a map of peers; a peer is usable for sending when its link state
is `'connected'`.  The constructor registers a `store.onAdd` listener that
broadcasts every *new* fact (local or remote — `addStored` fires the same
listeners) as `fact-add` to **all** connected peers, with no exclusion.  The
mesh-level messages of `protocol.ts` are modelled below; note that
`handleMessage`'s `switch` has **no case** for `scope-query`, `scope-response`
or `scope-hashes` — such messages fall through and nothing happens. -/

/-- A `scope-query` entry: `{ scope, knownHash }`. -/
structure ScopeQuery where
  scope : Scope
  knownHash : String
deriving DecidableEq, Repr

/-- A `scope-response` entry: `{ scope, hash, facts }`. -/
structure ScopeData where
  scope : Scope
  hash : String
  facts : List StoredFact
deriving DecidableEq, Repr

/-- The mesh-level messages of `src/network/protocol.ts` (the `group-*`
messages are routed to the `GroupManager`, modelled separately above). -/
inductive Msg where
  | hello (nodeId publicKey : String)
  | syncRequest (haveIds : List FactId)
  | syncResponse (facts : List StoredFact)
  | factAdd (f : StoredFact)
  | peerAnnounce (peers : List String)
  | scopeQuery (queries : List ScopeQuery)
  | scopeResponse (scopes : List ScopeData)
  | scopeHashes (hashes : List (Scope × String))
deriving DecidableEq, Repr

/-- Where an outgoing message goes: back over the link the incoming message
arrived on (`peer.send`), or to the named peer of the peers map
(`broadcast` / `sendToNode`). -/
inductive Target where
  | reply
  | node (id : String)
deriving DecidableEq, Repr

/-- The mesh state the fact handlers touch: the peers map (`nodeId ↦ link is
connected`) and the fact store. -/
structure MeshState where
  peers : List (String × Bool)
  store : DatalogStore
deriving DecidableEq, Repr

/-- `broadcast(msg, excludeNodeId?)`: every connected peer except the
excluded one, in map order. -/
def broadcastTargets (m : MeshState) (exclude : Option String) : List String :=
  (m.peers.filter (fun p => p.2 && decide (some p.1 ≠ exclude))).map (fun p => p.1)

/-- The `store.onAdd` listener registered in the `Mesh` constructor:
broadcast the new fact to every connected peer (no exclusion). -/
def onAddSends (m : MeshState) (f : StoredFact) : List (Target × Msg) :=
  (broadcastTargets m none).map (fun p => (Target.node p, Msg.factAdd f))

/-- `Mesh.handleMessage` restricted to the fact-replication messages, run on
a message arriving from `sender` (the link's `remoteInfo?.nodeId`).  Returns
the new state and the messages sent, in order.  `hello` records the peer;
`sync-request` answers with the set difference; `sync-response` applies each
fact via `addStored` (each *new* fact also triggers the `onAdd` broadcast);
`fact-add` applies the fact and — only when it was new — the `onAdd` listener
broadcasts it to every connected peer (sender included) and the handler
re-broadcasts it excluding the sender.  All other message kinds (in
particular `scope-query`, `scope-response`, `scope-hashes` and
`peer-announce`) have no case in the source's `switch`: nothing happens. -/
def handleMessage (m : MeshState) (sender : Option String) (msg : Msg)
    (now : Nat) : MeshState × List (Target × Msg) :=
  match msg with
  | .hello nodeId _ => ({ m with peers := mapSet m.peers nodeId true }, [])
  | .syncRequest haveIds =>
      let missing := m.store.all.filter (fun f => decide (f.id ∉ haveIds))
      (m, [(Target.reply, Msg.syncResponse missing)])
  | .syncResponse facts =>
      facts.foldl
        (fun acc f =>
          let r := acc.1.store.addStored f now
          ({ acc.1 with store := r.2 },
           acc.2 ++ (if r.1 then onAddSends acc.1 f else [])))
        (m, [])
  | .factAdd f =>
      let r := m.store.addStored f now
      if r.1 then
        ({ m with store := r.2 },
         onAddSends m f ++
           (broadcastTargets m sender).map (fun p => (Target.node p, Msg.factAdd f)))
      else (m, [])
  | _ => (m, [])

/-! ### Claim C5: fact-add propagation -/

/-- C5 counterexample: on receipt of a *new* `fact-add` from connected peer
`"p"`, the store's `onAdd` listener (registered in the `Mesh` constructor)
broadcasts the fact to **every** connected peer with no exclusion, so the
`fact-add` *is* sent back to the peer it was received from — the explicit
re-broadcast in `handleMessage` excludes the sender, but the listener does
not. -/
theorem C5_counterexample :
    (Target.node "p", Msg.factAdd demoFact) ∈
      (handleMessage ⟨[("p", true), ("q", true)], emptyStore⟩ (some "p")
        (Msg.factAdd demoFact) 1).2 := by
  decide

/-- Occurrence count (avoids depending on `BEq` instance choices). -/
def countOcc {α : Type} [DecidableEq α] (x : α) : List α → Nat
  | [] => 0
  | y :: rest => (if y = x then 1 else 0) + countOcc x rest

theorem countOcc_append {α : Type} [DecidableEq α] (x : α) (l₁ l₂ : List α) :
    countOcc x (l₁ ++ l₂) = countOcc x l₁ + countOcc x l₂ := by
  induction l₁ with
  | nil => simp [countOcc]
  | cons y rest ih =>
      show (if y = x then 1 else 0) + countOcc x (rest ++ l₂) =
        ((if y = x then 1 else 0) + countOcc x rest) + countOcc x l₂
      rw [ih]
      omega

theorem countOcc_node_map (l : List String) (q : String) (f : StoredFact) :
    countOcc (Target.node q, Msg.factAdd f)
        (l.map (fun p => (Target.node p, Msg.factAdd f))) = countOcc q l := by
  induction l with
  | nil => rfl
  | cons a rest ih =>
      rw [List.map_cons]
      unfold countOcc
      rw [ih]
      by_cases hqa : a = q
      · subst hqa
        rw [if_pos rfl, if_pos rfl]
      · rw [if_neg hqa, if_neg (by simp [hqa])]

theorem countOcc_eq_zero {α : Type} [DecidableEq α] (x : α) (l : List α)
    (h : x ∉ l) : countOcc x l = 0 := by
  induction l with
  | nil => rfl
  | cons y rest ih =>
      unfold countOcc
      rw [if_neg (fun hc => h (List.mem_cons.2 (Or.inl hc.symm))),
        ih (fun hc => h (List.mem_cons_of_mem _ hc))]

theorem countOcc_fst_filter :
    ∀ (peers : List (String × Bool)), (peers.map Prod.fst).Nodup →
      ∀ (q : String), (q, true) ∈ peers → ∀ (pred : String × Bool → Bool),
        countOcc q ((peers.filter pred).map Prod.fst) =
          if pred (q, true) then 1 else 0 := by
  intro peers
  induction peers with
  | nil => intro _ q hq; cases hq
  | cons p rest ih =>
      intro hnd q hq pred
      obtain ⟨a, b⟩ := p
      rw [List.map_cons, List.nodup_cons] at hnd
      rcases List.mem_cons.1 hq with heq | hmem
      · cases heq
        have hzero : countOcc q ((rest.filter pred).map Prod.fst) = 0 :=
          countOcc_eq_zero q _ (fun hc => by
            obtain ⟨x, hx, hxq⟩ := List.mem_map.1 hc
            exact hnd.1 (List.mem_map.2 ⟨x, List.mem_of_mem_filter hx, hxq⟩))
        rw [List.filter_cons]
        split
        next hp =>
          rw [List.map_cons]
          unfold countOcc
          simp [hzero, hp]
        next hp =>
          simp [hzero, hp]
      · have haq : a ≠ q := by
          rintro rfl
          exact hnd.1 (List.mem_map.2 ⟨(a, true), hmem, rfl⟩)
        rw [List.filter_cons]
        split
        · rw [List.map_cons]
          unfold countOcc
          rw [if_neg haq, ih hnd.2 q hmem pred]
          omega
        · exact ih hnd.2 q hmem pred

/-- C5 (amended): a received `fact-add` is applied via the idempotent
`addStored`; a duplicate fact triggers no state change and no sends at all;
a genuinely new fact is stored and then sent out twice over two paths: the
`onAdd` listener broadcasts it once to every connected peer *including* the
sender, and the handler re-broadcasts it once to every connected peer
*excluding* the sender — so every other connected peer receives it twice and
the sender receives it once (the original claim's "never sent back to the
sender" does not hold).  Every message sent is the same `fact-add`. -/
theorem C5_fact_add (m : MeshState) (sender : String) (f : StoredFact) (now : Nat)
    (hnd : (m.peers.map Prod.fst).Nodup) :
    ((mapGet m.store.facts f.id).isSome = true →
      handleMessage m (some sender) (.factAdd f) now = (m, []))
    ∧ (mapGet m.store.facts f.id = none →
        (handleMessage m (some sender) (.factAdd f) now).1.store =
          (m.store.addStored f now).2
        ∧ (∀ q : String, (q, true) ∈ m.peers → q ≠ sender →
            countOcc (Target.node q, Msg.factAdd f)
              (handleMessage m (some sender) (.factAdd f) now).2 = 2)
        ∧ ((sender, true) ∈ m.peers →
            countOcc (Target.node sender, Msg.factAdd f)
              (handleMessage m (some sender) (.factAdd f) now).2 = 1)
        ∧ (∀ t : Target, ∀ msg : Msg,
            (t, msg) ∈ (handleMessage m (some sender) (.factAdd f) now).2 →
              msg = Msg.factAdd f)) := by
  constructor
  · intro h
    unfold handleMessage
    dsimp only
    rw [addStored_of_present now h]
    simp
  · intro h
    have hstep : m.store.addStored f now = (true, insertFact m.store f now) := by
      unfold DatalogStore.addStored
      rw [h]
    unfold handleMessage
    dsimp only
    rw [hstep, if_pos rfl]
    dsimp only
    refine ⟨rfl, fun q hq hqs => ?_, fun hs => ?_, fun t msg hmem => ?_⟩
    · rw [countOcc_append]
      unfold onAddSends broadcastTargets
      rw [countOcc_node_map, countOcc_node_map,
        countOcc_fst_filter m.peers hnd q hq,
        countOcc_fst_filter m.peers hnd q hq]
      simp [hqs]
    · rw [countOcc_append]
      unfold onAddSends broadcastTargets
      rw [countOcc_node_map, countOcc_node_map,
        countOcc_fst_filter m.peers hnd sender hs,
        countOcc_fst_filter m.peers hnd sender hs]
      simp
    · rcases List.mem_append.1 hmem with hmem' | hmem'
      · unfold onAddSends at hmem'
        obtain ⟨p, -, hp⟩ := List.mem_map.1 hmem'
        cases hp
        rfl
      · obtain ⟨p, -, hp⟩ := List.mem_map.1 hmem'
        cases hp
        rfl

/-- Witness for C5: a duplicate delivery from `"p"` of an already-stored fact
changes nothing and sends nothing, while a fresh delivery reaches the other
connected peer `"q"` twice and the sender `"p"` once. -/
theorem C5_witness :
    handleMessage
        ⟨[("p", true), ("q", true)], (emptyStore.addStored demoFact 0).2⟩
        (some "p") (Msg.factAdd demoFact) 1 =
      (⟨[("p", true), ("q", true)], (emptyStore.addStored demoFact 0).2⟩, [])
    ∧ countOcc (Target.node "q", Msg.factAdd demoFact)
        (handleMessage ⟨[("p", true), ("q", true)], emptyStore⟩ (some "p")
          (Msg.factAdd demoFact) 1).2 = 2
    ∧ countOcc (Target.node "p", Msg.factAdd demoFact)
        (handleMessage ⟨[("p", true), ("q", true)], emptyStore⟩ (some "p")
          (Msg.factAdd demoFact) 1).2 = 1 := by
  obtain ⟨hdup, -⟩ :=
    C5_fact_add ⟨[("p", true), ("q", true)], (emptyStore.addStored demoFact 0).2⟩
      "p" demoFact 1 (by decide)
  obtain ⟨-, hfresh⟩ :=
    C5_fact_add ⟨[("p", true), ("q", true)], emptyStore⟩ "p" demoFact 1 (by decide)
  obtain ⟨-, hcount2, hcount1, -⟩ := hfresh rfl
  exact ⟨hdup (by decide), hcount2 "q" (by decide) (by decide), hcount1 (by decide)⟩

/-! ### Claim C6: the scope-query path -/

/-- C6: `Mesh.handleMessage`'s `switch` has no `case 'scope-query'` (nor for
`scope-response` / `scope-hashes`), so an incoming `scope-query` is silently
dropped: the state is unchanged and no message — in particular no
`scope-response` — is ever sent, regardless of the queried scopes, their
visibility, or the supplied hashes.  This contradicts the documented
visibility-scoped sync path (`protocol.ts` declares the message types and the
repository's SPECIFICATION.md §5.3–5.4 describes the holder answering with
the facts of scopes visible to the requester). -/
theorem C6_scope_query_dropped (m : MeshState) (sender : Option String)
    (q : List ScopeQuery) (now : Nat) :
    handleMessage m sender (Msg.scopeQuery q) now = (m, []) := rfl

/-! ### The DHT routing table (Kademlia-style, `DHT` source file)

Node ids are byte arrays (the source decodes base64url node-id strings to
`Uint8Array`s of the underlying public-key bytes; the decoding is injective
on valid ids and is abstracted away here — `nodeId` fields hold the decoded
bytes directly, as `List Nat` with each byte < 256). -/

structure DHTPeerInfo where
  nodeId : List Nat
  publicKey : String
deriving DecidableEq, Repr

structure DHTNode where
  nodeId : List Nat
  info : DHTPeerInfo
  lastSeen : Nat
deriving DecidableEq, Repr

structure DHT where
  localId : List Nat
  buckets : List (List DHTNode)
deriving DecidableEq, Repr

/-- `xorDistance`: byte-wise xor, truncated to the shorter array. -/
def xorBytes (a b : List Nat) : List Nat := List.zipWith (fun x y => x ^^^ y) a b

/-- `compareDistance`: first differing byte decides; equal common prefix
(up to the shorter length) compares equal. -/
def compareDist : List Nat → List Nat → Ordering
  | a :: as, b :: bs =>
      if a < b then Ordering.lt
      else if b < a then Ordering.gt
      else compareDist as bs
  | _, _ => Ordering.eq

/-- `7 - (highest set bit)` of a nonzero byte, as computed by the source's
descending bit scan. -/
def bitOffset (b : Nat) : Nat :=
  if 128 ≤ b then 0 else if 64 ≤ b then 1 else if 32 ≤ b then 2
  else if 16 ≤ b then 3 else if 8 ≤ b then 4 else if 4 ≤ b then 5
  else if 2 ≤ b then 6 else 7

def bucketIndexGo (totalLen : Nat) : Nat → List Nat → Nat
  | _, [] => totalLen * 8 - 1
  | i, b :: rest =>
      if b ≠ 0 then i * 8 + bitOffset b else bucketIndexGo totalLen (i + 1) rest

/-- `bucketIndex`: `byteIndex*8 + (7 - highestSetBitInByte)` of the first
nonzero byte; all-zero distances land in the last bucket. -/
def bucketIndex (d : List Nat) : Nat := bucketIndexGo d.length 0 d

/-- The constructor: 256 empty buckets. -/
def DHT.init (localId : List Nat) : DHT := ⟨localId, List.replicate 256 []⟩

/-- Refresh the `lastSeen` of the first node with the given id (the source
updates the node found by `findIndex`). -/
def refreshFirst (l : List DHTNode) (id : List Nat) (now : Nat) : List DHTNode :=
  match l with
  | [] => []
  | n :: rest =>
      if n.info.nodeId = id then { n with lastSeen := now } :: rest
      else n :: refreshFirst rest id now

/-- Remove the first node with the given id (`findIndex` + `splice`). -/
def dropFirst (l : List DHTNode) (id : List Nat) : List DHTNode :=
  match l with
  | [] => []
  | n :: rest => if n.info.nodeId = id then rest else n :: dropFirst rest id

/-- `addPeer`: refresh `lastSeen` when the peer is already in its bucket;
append it when the bucket has room (< K = 20); otherwise drop it (the
eviction stub). -/
def DHT.addPeer (d : DHT) (info : DHTPeerInfo) (now : Nat) : DHT :=
  let nodeId := info.nodeId
  let i := bucketIndex (xorBytes d.localId nodeId)
  let bucket := d.buckets.getD i []
  if bucket.any (fun n => decide (n.info.nodeId = info.nodeId)) then
    { d with buckets := d.buckets.set i (refreshFirst bucket info.nodeId now) }
  else if bucket.length < 20 then
    { d with buckets := d.buckets.set i (bucket ++ [⟨nodeId, info, now⟩]) }
  else d

/-- `removePeer`. -/
def DHT.removePeer (d : DHT) (nodeId : List Nat) : DHT :=
  let i := bucketIndex (xorBytes d.localId nodeId)
  { d with buckets := d.buckets.set i (dropFirst (d.buckets.getD i []) nodeId) }

/-- All stored nodes, in bucket-then-insertion order. -/
def allNodes (d : DHT) : List DHTNode := d.buckets.flatten

/-- The sort order of `findClosest`'s comparator: `x` not farther than `y`. -/
def distLE (x y : List Nat × DHTPeerInfo) : Prop := compareDist x.1 y.1 ≠ Ordering.gt

instance : DecidableRel distLE := fun x y =>
  inferInstanceAs (Decidable (compareDist x.1 y.1 ≠ Ordering.gt))

/-- `findClosest`: collect every known peer with its xor distance to the
target, sort by the distance comparator (JS `Array.sort` is stable, as is
insertion sort) and return the first `count` infos. -/
def DHT.findClosest (d : DHT) (target : List Nat) (count : Nat) :
    List DHTPeerInfo :=
  let entries := (allNodes d).map (fun n => (xorBytes target n.nodeId, n.info))
  ((entries.insertionSort distLE).take count).map (fun e => e.2)

/-- The numeric value of a big-endian byte array; equal-length byte arrays
compare by `compareDist` exactly as their values compare. -/
def natOfBytes : List Nat → Nat
  | [] => 0
  | b :: rest => b * 256 ^ rest.length + natOfBytes rest

def keyedLE (x y : Nat × DHTPeerInfo) : Prop := x.1 ≤ y.1

instance : DecidableRel keyedLE := fun x y => Nat.decLe x.1 y.1

instance : IsTotal (Nat × DHTPeerInfo) keyedLE := ⟨fun a b => Nat.le_total a.1 b.1⟩

instance : IsTrans (Nat × DHTPeerInfo) keyedLE := ⟨fun _ _ _ => Nat.le_trans⟩

/-- `findClosest` as the claim words it: the `count` known peers with the
smallest numeric xor distance to the target, in order of increasing
distance (ties resolved stably). -/
def findClosestSpec (d : DHT) (target : List Nat) (count : Nat) :
    List DHTPeerInfo :=
  let keyed := (allNodes d).map
    (fun n => (natOfBytes (xorBytes target n.nodeId), n.info))
  ((keyed.insertionSort keyedLE).take count).map (fun e => e.2)

/-- The operations applied to a routing table. -/
inductive DHTOp where
  | addPeer (info : DHTPeerInfo) (now : Nat)
  | removePeer (nodeId : List Nat)
deriving DecidableEq, Repr

def applyDHTOp (d : DHT) : DHTOp → DHT
  | .addPeer info now => d.addPeer info now
  | .removePeer nodeId => d.removePeer nodeId

def applyDHTOps (localId : List Nat) (ops : List DHTOp) : DHT :=
  ops.foldl applyDHTOp (DHT.init localId)

/-- Every id the operation touches is a 256-bit (32-byte) id, as the source
assumes ("Initialize 256 buckets (for 256-bit node IDs)"). -/
def dhtOpLen : DHTOp → Prop
  | .addPeer info _ => info.nodeId.length = 32
  | .removePeer nodeId => nodeId.length = 32

instance : DecidablePred dhtOpLen := fun op => by
  cases op <;> exact inferInstanceAs (Decidable (_ = 32))

theorem refreshFirst_length (l : List DHTNode) (id : List Nat) (now : Nat) :
    (refreshFirst l id now).length = l.length := by
  induction l with
  | nil => rfl
  | cons n rest ih =>
      unfold refreshFirst
      split <;> simp [ih]

theorem dropFirst_length_le (l : List DHTNode) (id : List Nat) :
    (dropFirst l id).length ≤ l.length := by
  induction l with
  | nil => exact Nat.le_refl _
  | cons n rest ih =>
      unfold dropFirst
      split
      · exact Nat.le_succ _
      · simpa using Nat.succ_le_succ ih

/-- `refreshFirst` changes `lastSeen` only: ids and infos are untouched. -/
theorem refreshFirst_strip (l : List DHTNode) (id : List Nat) (now : Nat) :
    (refreshFirst l id now).map (fun n => (n.nodeId, n.info)) =
      l.map (fun n => (n.nodeId, n.info)) := by
  induction l with
  | nil => rfl
  | cons n rest ih =>
      unfold refreshFirst
      split <;> simp [ih]

theorem map_set_getD {α β : Type} (dflt : α) (f : α → β) :
    ∀ (l : List α) (i : Nat), (l.map f).set i (f (l.getD i dflt)) = l.map f := by
  intro l
  induction l with
  | nil => intro i; rfl
  | cons a rest ih =>
      intro i
      cases i with
      | zero => rfl
      | succ j =>
          show f a :: (rest.map f).set j (f (rest.getD j dflt)) = f a :: rest.map f
          rw [ih j]

/-- The routing-table shape invariant of the claim: exactly 256 buckets, each
within the K = 20 capacity. -/
def DHTInv (d : DHT) : Prop :=
  d.buckets.length = 256 ∧ ∀ b ∈ d.buckets, b.length ≤ 20

theorem getD_length_le {d : DHT} (h : DHTInv d) (i : Nat) :
    (d.buckets.getD i []).length ≤ 20 := by
  show ((d.buckets.get? i).getD []).length ≤ 20
  rcases hg : d.buckets.get? i with _ | b
  · exact Nat.zero_le _
  · exact h.2 b (List.get?_mem hg)

theorem DHTInv_init (localId : List Nat) : DHTInv (DHT.init localId) := by
  constructor
  · show (List.replicate 256 ([] : List DHTNode)).length = 256
    rw [List.length_replicate]
  · intro b hb
    rw [List.eq_of_mem_replicate
      (show b ∈ List.replicate 256 ([] : List DHTNode) from hb)]
    exact Nat.zero_le _

theorem DHTInv_addPeer {d : DHT} (h : DHTInv d) (info : DHTPeerInfo) (now : Nat) :
    DHTInv (d.addPeer info now) := by
  unfold DHT.addPeer
  dsimp only
  split
  · refine ⟨by rw [List.length_set]; exact h.1, fun b hb => ?_⟩
    rcases List.mem_or_eq_of_mem_set hb with hb' | rfl
    · exact h.2 b hb'
    · rw [refreshFirst_length]
      exact getD_length_le h _
  · split
    next hlt =>
      refine ⟨by rw [List.length_set]; exact h.1, fun b hb => ?_⟩
      rcases List.mem_or_eq_of_mem_set hb with hb' | rfl
      · exact h.2 b hb'
      · rw [List.length_append, List.length_singleton]
        omega
    next => exact h

theorem DHTInv_removePeer {d : DHT} (h : DHTInv d) (nodeId : List Nat) :
    DHTInv (d.removePeer nodeId) := by
  unfold DHT.removePeer
  refine ⟨by rw [List.length_set]; exact h.1, fun b hb => ?_⟩
  rcases List.mem_or_eq_of_mem_set hb with hb' | rfl
  · exact h.2 b hb'
  · exact Nat.le_trans (dropFirst_length_le ..) (getD_length_le h _)

/-- `addPeer` on a full bucket not containing the peer leaves the whole
table unchanged (the eviction stub drops the new peer). -/
theorem addPeer_full_drop (d : DHT) (info : DHTPeerInfo) (now : Nat)
    (hfull : ¬ (d.buckets.getD (bucketIndex (xorBytes d.localId info.nodeId)) []).length < 20)
    (habsent : ∀ n ∈ d.buckets.getD (bucketIndex (xorBytes d.localId info.nodeId)) [],
      n.info.nodeId ≠ info.nodeId) :
    d.addPeer info now = d := by
  have hany : ¬ ((d.buckets.getD (bucketIndex (xorBytes d.localId info.nodeId)) []).any
      (fun n => decide (n.info.nodeId = info.nodeId)) = true) := by
    intro hc
    obtain ⟨n, hn, hdec⟩ := List.any_eq_true.1 hc
    exact habsent n hn (of_decide_eq_true hdec)
  unfold DHT.addPeer
  dsimp only
  rw [if_neg hany, if_neg hfull]

/-- `addPeer` on an already-known peer only refreshes its `lastSeen`: every
bucket's ids and infos are unchanged. -/
theorem addPeer_refresh (d : DHT) (info : DHTPeerInfo) (now : Nat)
    (hin : (d.buckets.getD (bucketIndex (xorBytes d.localId info.nodeId)) []).any
      (fun n => decide (n.info.nodeId = info.nodeId)) = true) :
    (d.addPeer info now).buckets.map (fun b => b.map (fun n => (n.nodeId, n.info))) =
      d.buckets.map (fun b => b.map (fun n => (n.nodeId, n.info))) := by
  unfold DHT.addPeer
  dsimp only
  rw [if_pos hin]
  dsimp only
  rw [List.map_set, refreshFirst_strip]
  exact map_set_getD [] _ d.buckets _

/-! ### `findClosest` refines sort-by-numeric-distance -/

theorem natOfBytes_lt_pow (l : List Nat) (h : ∀ b ∈ l, b < 256) :
    natOfBytes l < 256 ^ l.length := by
  induction l with
  | nil => simp [natOfBytes]
  | cons b rest ih =>
      have hb : b < 256 := h b (List.mem_cons_self _ _)
      have hr : natOfBytes rest < 256 ^ rest.length :=
        ih (fun x hx => h x (List.mem_cons_of_mem _ hx))
      show b * 256 ^ rest.length + natOfBytes rest < 256 ^ (rest.length + 1)
      calc b * 256 ^ rest.length + natOfBytes rest
          < b * 256 ^ rest.length + 256 ^ rest.length := by omega
        _ = (b + 1) * 256 ^ rest.length := by ring
        _ ≤ 256 * 256 ^ rest.length := Nat.mul_le_mul_right _ (by omega)
        _ = 256 ^ (rest.length + 1) := by ring

theorem compareDist_gt_iff :
    ∀ (a b : List Nat), a.length = b.length → (∀ x ∈ a, x < 256) →
      (∀ x ∈ b, x < 256) →
      (compareDist a b = Ordering.gt ↔ natOfBytes b < natOfBytes a) := by
  intro a
  induction a with
  | nil =>
      intro b hlen _ _
      cases b with
      | nil => simp [compareDist, natOfBytes]
      | cons q bs => cases hlen
  | cons p as ih =>
      intro b hlen hba hbb
      cases b with
      | nil => cases hlen
      | cons q bs =>
          have hlen' : as.length = bs.length := by
            simpa using hlen
          have hpa : p < 256 := hba p (List.mem_cons_self _ _)
          have hqa : q < 256 := hbb q (List.mem_cons_self _ _)
          have hasb : natOfBytes as < 256 ^ as.length :=
            natOfBytes_lt_pow as (fun x hx => hba x (List.mem_cons_of_mem _ hx))
          have hbsb : natOfBytes bs < 256 ^ bs.length :=
            natOfBytes_lt_pow bs (fun x hx => hbb x (List.mem_cons_of_mem _ hx))
          show (if p < q then Ordering.lt else if q < p then Ordering.gt
              else compareDist as bs) = Ordering.gt ↔
            q * 256 ^ bs.length + natOfBytes bs < p * 256 ^ as.length + natOfBytes as
          rw [← hlen']
          by_cases hpq : p < q
          · rw [if_pos hpq]
            constructor
            · intro hc; cases hc
            · intro hc
              exfalso
              have : p * 256 ^ as.length + natOfBytes as <
                  q * 256 ^ as.length + natOfBytes bs := by
                calc p * 256 ^ as.length + natOfBytes as
                    < p * 256 ^ as.length + 256 ^ as.length := by omega
                  _ = (p + 1) * 256 ^ as.length := by ring
                  _ ≤ q * 256 ^ as.length := Nat.mul_le_mul_right _ (by omega)
                  _ ≤ q * 256 ^ as.length + natOfBytes bs := Nat.le_add_right ..
              omega
          · rw [if_neg hpq]
            by_cases hqp : q < p
            · rw [if_pos hqp]
              constructor
              · intro _
                calc q * 256 ^ as.length + natOfBytes bs
                    < q * 256 ^ as.length + 256 ^ as.length := by
                      rw [← hlen'] at hbsb
                      omega
                  _ = (q + 1) * 256 ^ as.length := by ring
                  _ ≤ p * 256 ^ as.length := Nat.mul_le_mul_right _ (by omega)
                  _ ≤ p * 256 ^ as.length + natOfBytes as := Nat.le_add_right ..
              · intro _; rfl
            · have hpq' : p = q := by omega
              subst hpq'
              rw [if_neg hqp,
                ih bs hlen' (fun x hx => hba x (List.mem_cons_of_mem _ hx))
                  (fun x hx => hbb x (List.mem_cons_of_mem _ hx))]
              generalize p * 256 ^ as.length = M
              omega

/-- Inserting through a relation-respecting map. -/
theorem orderedInsert_map_corr {α β : Type} (r : α → α → Prop) (r' : β → β → Prop)
    [DecidableRel r] [DecidableRel r'] (f : α → β) (a : α) :
    ∀ L : List α, (∀ y ∈ L, (r a y ↔ r' (f a) (f y))) →
      List.orderedInsert r' (f a) (L.map f) = (List.orderedInsert r a L).map f := by
  intro L
  induction L with
  | nil => intro _; rfl
  | cons b L ih =>
      intro hcorr
      show (if r' (f a) (f b) then f a :: f b :: L.map f
          else f b :: List.orderedInsert r' (f a) (L.map f)) =
        (if r a b then a :: b :: L else b :: List.orderedInsert r a L).map f
      by_cases hr : r a b
      · rw [if_pos hr, if_pos ((hcorr b (List.mem_cons_self _ _)).1 hr)]
        rfl
      · rw [if_neg hr,
          if_neg (fun hc => hr ((hcorr b (List.mem_cons_self _ _)).2 hc))]
        rw [List.map_cons, ih (fun y hy => hcorr y (List.mem_cons_of_mem _ hy))]

/-- Sorting through a relation-respecting map. -/
theorem insertionSort_map_corr {α β : Type} (r : α → α → Prop) (r' : β → β → Prop)
    [DecidableRel r] [DecidableRel r'] (f : α → β) :
    ∀ l : List α, (∀ x ∈ l, ∀ y ∈ l, (r x y ↔ r' (f x) (f y))) →
      List.insertionSort r' (l.map f) = (List.insertionSort r l).map f := by
  intro l
  induction l with
  | nil => intro _; rfl
  | cons a rest ih =>
      intro hcorr
      show List.orderedInsert r' (f a) (List.insertionSort r' (rest.map f)) =
        (List.orderedInsert r a (List.insertionSort r rest)).map f
      rw [ih (fun x hx y hy => hcorr x (List.mem_cons_of_mem _ hx)
        y (List.mem_cons_of_mem _ hy))]
      exact orderedInsert_map_corr r r' f a (List.insertionSort r rest)
        (fun y hy => hcorr a (List.mem_cons_self _ _) y
          (List.mem_cons_of_mem _ ((List.mem_insertionSort r).1 hy)))

theorem xorBytes_bytes_lt :
    ∀ (a b : List Nat), (∀ x ∈ a, x < 256) → (∀ x ∈ b, x < 256) →
      ∀ x ∈ xorBytes a b, x < 256 := by
  intro a
  induction a with
  | nil => intro b _ _ x hx; cases hx
  | cons p as ih =>
      intro b ha hb x hx
      cases b with
      | nil => cases hx
      | cons q bs =>
          rcases List.mem_cons.1 hx with rfl | hx'
          · have h1 : p < 2 ^ 8 := ha p (List.mem_cons_self _ _)
            have h2 : q < 2 ^ 8 := hb q (List.mem_cons_self _ _)
            exact Nat.xor_lt_two_pow h1 h2
          · exact ih bs (fun y hy => ha y (List.mem_cons_of_mem _ hy))
              (fun y hy => hb y (List.mem_cons_of_mem _ hy)) x hx'

theorem xorBytes_length (a b : List Nat) :
    (xorBytes a b).length = min a.length b.length :=
  List.length_zipWith ..

/-- When every stored id has the target's length and all bytes are bytes,
`findClosest` computes exactly the spec's sort-by-numeric-distance-and-take
(`JS sort` with this comparator is stable, as is insertion sort). -/
theorem findClosest_eq_spec (d : DHT) (target : List Nat) (count : Nat)
    (hlen : ∀ n ∈ allNodes d, n.nodeId.length = target.length)
    (hbt : ∀ x ∈ target, x < 256)
    (hbn : ∀ n ∈ allNodes d, ∀ x ∈ n.nodeId, x < 256) :
    d.findClosest target count = findClosestSpec d target count := by
  unfold DHT.findClosest findClosestSpec
  dsimp only
  have hentry : ∀ e ∈ (allNodes d).map (fun n => (xorBytes target n.nodeId, n.info)),
      e.1.length = target.length ∧ ∀ x ∈ e.1, x < 256 := by
    intro e he
    obtain ⟨n, hn, rfl⟩ := List.mem_map.1 he
    refine ⟨?_, xorBytes_bytes_lt target n.nodeId hbt (hbn n hn)⟩
    rw [xorBytes_length, hlen n hn]
    exact Nat.min_self _
  have hcorr : ∀ x ∈ (allNodes d).map (fun n => (xorBytes target n.nodeId, n.info)),
      ∀ y ∈ (allNodes d).map (fun n => (xorBytes target n.nodeId, n.info)),
      (distLE x y ↔ keyedLE (natOfBytes x.1, x.2) (natOfBytes y.1, y.2)) := by
    intro x hx y hy
    obtain ⟨hxl, hxb⟩ := hentry x hx
    obtain ⟨hyl, hyb⟩ := hentry y hy
    unfold distLE keyedLE
    dsimp only
    have hiff := compareDist_gt_iff x.1 y.1 (by rw [hxl, hyl]) hxb hyb
    constructor
    · intro h
      by_contra hc
      exact h (hiff.2 (by omega))
    · intro h hc
      have := hiff.1 hc
      omega
  rw [show (allNodes d).map (fun n => (natOfBytes (xorBytes target n.nodeId), n.info)) =
      ((allNodes d).map (fun n => (xorBytes target n.nodeId, n.info))).map
        (fun e => (natOfBytes e.1, e.2)) by rw [List.map_map]; rfl]
  rw [insertionSort_map_corr distLE keyedLE _ _ hcorr]
  rw [← List.map_take, List.map_map]
  rfl

theorem DHTInv_fold :
    ∀ (ops : List DHTOp) (d : DHT), DHTInv d → DHTInv (ops.foldl applyDHTOp d) := by
  intro ops
  induction ops with
  | nil => intro d h; exact h
  | cons op rest ih =>
      intro d h
      apply ih
      cases op with
      | addPeer info now => exact DHTInv_addPeer h info now
      | removePeer nodeId => exact DHTInv_removePeer h nodeId

/-- The numeric xor distance of a peer's id from a target. -/
def distKeyI (target : List Nat) (p : DHTPeerInfo) : Nat :=
  natOfBytes (xorBytes target p.nodeId)

/-- The concrete three-peer table of the claim's scenario: local id `[0]`,
peers at xor distances 3, 1 and 2 from the target `[0]`. -/
def dht3 : DHT :=
  (((DHT.init [0]).addPeer ⟨[3], "pk3"⟩ 0).addPeer ⟨[1], "pk1"⟩ 1).addPeer
    ⟨[2], "pk2"⟩ 2

/-- C9: the routing table always has exactly 256 buckets of at most K = 20
peers (for 32-byte ids, as the source assumes); `addPeer` on a full bucket
not containing the peer leaves the table unchanged; `addPeer` on a known
peer only refreshes its `lastSeen` (ids and infos of every bucket are
untouched); and `findClosest(target, count)` equals sorting every known peer
by numeric xor distance to the target and taking the first `count` — so it
returns `min count` peers in order of increasing distance, each at most as
distant as every omitted peer.  Concretely, with peers at distances
1 < 2 < 3, `findClosest(target, 2)` returns exactly the two closest, in
order. -/
theorem C9_dht (localId target : List Nat) (ops : List DHTOp) (d : DHT)
    (info : DHTPeerInfo) (now count : Nat)
    (hloc : localId.length = 32) (hops : ∀ op ∈ ops, dhtOpLen op)
    (hlen : ∀ n ∈ allNodes d, n.nodeId.length = target.length)
    (hbt : ∀ x ∈ target, x < 256)
    (hbn : ∀ n ∈ allNodes d, ∀ x ∈ n.nodeId, x < 256)
    (hinfo : ∀ n ∈ allNodes d, n.info.nodeId = n.nodeId) :
    DHTInv (applyDHTOps localId ops)
    ∧ (¬ (d.buckets.getD (bucketIndex (xorBytes d.localId info.nodeId)) []).length < 20 →
        (∀ n ∈ d.buckets.getD (bucketIndex (xorBytes d.localId info.nodeId)) [],
          n.info.nodeId ≠ info.nodeId) →
        d.addPeer info now = d)
    ∧ ((d.buckets.getD (bucketIndex (xorBytes d.localId info.nodeId)) []).any
        (fun n => decide (n.info.nodeId = info.nodeId)) = true →
        (d.addPeer info now).buckets.map (fun b => b.map (fun n => (n.nodeId, n.info))) =
          d.buckets.map (fun b => b.map (fun n => (n.nodeId, n.info))))
    ∧ d.findClosest target count = findClosestSpec d target count
    ∧ (d.findClosest target count).length = min count (allNodes d).length
    ∧ (d.findClosest target count).Pairwise
        (fun p q => distKeyI target p ≤ distKeyI target q)
    ∧ (∀ x ∈ (((allNodes d).map
          (fun n => (natOfBytes (xorBytes target n.nodeId), n.info))).insertionSort
            keyedLE).take count,
       ∀ y ∈ (((allNodes d).map
          (fun n => (natOfBytes (xorBytes target n.nodeId), n.info))).insertionSort
            keyedLE).drop count, x.1 ≤ y.1)
    ∧ dht3.findClosest [0] 2 = [⟨[1], "pk1"⟩, ⟨[2], "pk2"⟩] := by
  have hspec := findClosest_eq_spec d target count hlen hbt hbn
  have hsorted := List.sorted_insertionSort keyedLE
    ((allNodes d).map (fun n => (natOfBytes (xorBytes target n.nodeId), n.info)))
  refine ⟨DHTInv_fold ops _ (DHTInv_init localId),
    fun hfull habsent => addPeer_full_drop d info now hfull habsent,
    fun hin => addPeer_refresh d info now hin,
    hspec, ?_, ?_, ?_, by decide⟩
  · unfold DHT.findClosest
    dsimp only
    rw [List.length_map, List.length_take, List.length_insertionSort,
      List.length_map]
  · rw [hspec]
    unfold findClosestSpec
    dsimp only
    have htake : (((allNodes d).map
        (fun n => (natOfBytes (xorBytes target n.nodeId), n.info))).insertionSort
          keyedLE).take count |>.Pairwise keyedLE :=
      List.Pairwise.sublist (List.take_sublist ..) hsorted
    have hkey : ∀ x ∈ (((allNodes d).map
        (fun n => (natOfBytes (xorBytes target n.nodeId), n.info))).insertionSort
          keyedLE).take count, x.1 = distKeyI target x.2 := by
      intro x hx
      have hx' := (List.mem_insertionSort keyedLE).1
        (List.take_subset _ _ hx)
      obtain ⟨n, hn, rfl⟩ := List.mem_map.1 hx'
      unfold distKeyI
      dsimp only
      rw [hinfo n hn]
    rw [List.pairwise_map]
    refine List.Pairwise.imp_of_mem ?_ htake
    intro a b ha hb hab
    rw [← hkey a ha, ← hkey b hb]
    exact hab
  · intro x hx y hy
    have hall : (((allNodes d).map
        (fun n => (natOfBytes (xorBytes target n.nodeId), n.info))).insertionSort
          keyedLE).Pairwise keyedLE := hsorted
    rw [← List.take_append_drop count (((allNodes d).map
      (fun n => (natOfBytes (xorBytes target n.nodeId), n.info))).insertionSort
        keyedLE)] at hall
    exact (List.pairwise_append.1 hall).2.2 x hx y hy

/-- Witness for C9: the invariant on a concrete 32-byte-id op sequence, and
the refinement plus the concrete closest-two lookup on the three-peer
table. -/
theorem C9_witness :
    DHTInv (applyDHTOps (List.replicate 32 0)
      [DHTOp.addPeer ⟨List.replicate 32 1, "pk"⟩ 0])
    ∧ dht3.findClosest [0] 2 = findClosestSpec dht3 [0] 2
    ∧ dht3.findClosest [0] 2 = [⟨[1], "pk1"⟩, ⟨[2], "pk2"⟩] := by
  obtain ⟨h1, -, -, h4, -, -, -, h8⟩ :=
    C9_dht (List.replicate 32 0) [0]
      [DHTOp.addPeer ⟨List.replicate 32 1, "pk"⟩ 0] dht3 ⟨[9], "pk9"⟩ 7 2
      (by decide) (by decide) (by decide) (by decide) (by decide) (by decide)
  exact ⟨h1, h4, h8⟩

end Meshlang
